import Mathlib

/-!
Verification of the data-preparation pipeline of
`src/activities/solutions/my_code.py` (`prepare_paralympics_data`).

A pandas DataFrame is embedded as a header (list of column names) together
with a list of rows; each row is an association list from column names to
cells, and well-formedness (`DataFrame.Wf`) states that every row's key
sequence equals the header.  Cells carry the value kinds the pipeline
meets: missing values (NaN/NaT/NA), strings (object dtype), rationals
(float64 — every float the pipeline handles is an exact count or NaN, so
rationals model them faithfully), nullable integers (Int64) and calendar
dates (datetime64, stored as a proleptic-Gregorian day number).
Fallible pandas operations (KeyError on a missing label, ValueError on an
unparsable date, unsafe casts) are embedded in `Except String`.
-/

inductive Cell where
  | null : Cell
  | str : String → Cell
  | num : Rat → Cell
  | int : Int → Cell
  | date : Nat → Cell
deriving DecidableEq, Repr

abbrev Row := List (String × Cell)

def rowKeys (r : Row) : List String := r.map Prod.fst

/-- The value of column `c` in row `r` (first matching entry, `null` if absent). -/
def rowCell (r : Row) (c : String) : Cell := (r.lookup c).getD Cell.null

structure DataFrame where
  cols : List String
  rows : List Row
deriving DecidableEq, Repr

/-- Every row's key sequence is exactly the header. -/
def DataFrame.Wf (df : DataFrame) : Prop := ∀ r ∈ df.rows, rowKeys r = df.cols

instance (df : DataFrame) : Decidable df.Wf := by
  unfold DataFrame.Wf; infer_instance

instance {ε α : Type} [DecidableEq ε] [DecidableEq α] : DecidableEq (Except ε α) := fun a b =>
  match a, b with
  | Except.ok x, Except.ok y =>
    if h : x = y then isTrue (by rw [h]) else isFalse (by intro hc; cases hc; exact h rfl)
  | Except.error x, Except.error y =>
    if h : x = y then isTrue (by rw [h]) else isFalse (by intro hc; cases hc; exact h rfl)
  | Except.ok _, Except.error _ => isFalse (by intro hc; cases hc)
  | Except.error _, Except.ok _ => isFalse (by intro hc; cases hc)

/-! ### Calendar dates

`pd.to_datetime(..., format=...)` parses day/month/year strings to
timestamps; we store a date as its day number so that the later
`(end - start).dt.days` is plain subtraction. -/

def isLeapYear (y : Nat) : Bool :=
  (y % 4 == 0 && y % 100 != 0) || (y % 400 == 0)

def daysInMonth (y m : Nat) : Nat :=
  if m = 2 then (if isLeapYear y then 29 else 28)
  else if m = 4 ∨ m = 6 ∨ m = 9 ∨ m = 11 then 30
  else 31

def daysBeforeMonth (y m : Nat) : Nat :=
  ((List.range (m - 1)).map (fun i => daysInMonth y (i + 1))).sum

/-- Day number of year `y`, month `m`, day `d` (proleptic Gregorian). -/
def rataDie (y m d : Nat) : Nat :=
  365 * (y - 1) + (y - 1) / 4 - (y - 1) / 100 + (y - 1) / 400 + daysBeforeMonth y m + d

/-- Split a character list at every occurrence of `sep` (the single-char
case of `str.split`). -/
def splitOnChar (sep : Char) : List Char → List (List Char)
  | [] => [[]]
  | c :: cs =>
    if c = sep then [] :: splitOnChar sep cs
    else
      match splitOnChar sep cs with
      | [] => [[c]]
      | h :: t => (c :: h) :: t

/-- Read a nonempty all-digit character list as a number. -/
def digitsToNat : List Char → Option Nat
  | [] => none
  | l => l.foldl (fun acc c =>
      match acc with
      | none => none
      | some n => if c.isDigit then some (n * 10 + (c.toNat - 48)) else none)
      (some 0)

/-- Strict day/month/year parsing, the embedding of format `%d/%m/%Y`:
day and month take one or two digits, the year exactly four, separated by
slashes, and the day must exist in the given month.  Anything else is
rejected (`none`), never coerced. -/
def parseDMY (s : String) : Option Nat :=
  match splitOnChar '/' s.toList with
  | [ds, ms, ys] =>
    match digitsToNat ds, digitsToNat ms, digitsToNat ys with
    | some d, some m, some y =>
      if ds.length ≤ 2 ∧ ms.length ≤ 2 ∧ ys.length = 4 ∧
          1 ≤ m ∧ m ≤ 12 ∧ 1 ≤ d ∧ d ≤ daysInMonth y m ∧ 1 ≤ y then
        some (rataDie y m d)
      else none
    | _, _, _ => none
  | _ => none

/-! ### Cell-level operations of the pipeline -/

/-- Embedding of `pd.to_datetime` on one cell: NaN passes through as NaT, a string must
match the format exactly or the call raises, it never silently coerces. -/
def parseDateCell (c : Cell) : Except String Cell :=
  match c with
  | Cell.null => Except.ok Cell.null
  | Cell.date d => Except.ok (Cell.date d)
  | Cell.str s =>
    match parseDMY s with
    | some n => Except.ok (Cell.date n)
    | none => Except.error "ValueError: time data does not match format d/m/Y"
  | _ => Except.error "TypeError: value not parsable as datetime"

/-- Embedding of `astype(Int64)` on one cell: NA stays NA, an integral float becomes an
integer, a non-integral value cannot be cast safely and raises. -/
def toInt64Cell (c : Cell) : Except String Cell :=
  match c with
  | Cell.null => Except.ok Cell.null
  | Cell.int n => Except.ok (Cell.int n)
  | Cell.num q =>
    if q.den = 1 then Except.ok (Cell.int q.num)
    else Except.error "TypeError: cannot safely cast non-equivalent values to Int64"
  | _ => Except.error "TypeError: cannot cast to Int64"

/-- Embedding of `(end - start).dt.days` followed by `astype(Int64)` on one row: the whole-day
difference when both ends are dates, NA as soon as either is missing. -/
def durCell (e s : Cell) : Cell :=
  match e, s with
  | Cell.date de, Cell.date ds => Cell.int ((de : Int) - (ds : Int))
  | _, _ => Cell.null

/-- Embedding of `df.loc[df[type] == Summer, type] = summer` on one cell. -/
def fixSummerCell (c : Cell) : Cell :=
  if c = Cell.str "Summer" then Cell.str "summer" else c

/-- Remove leading and trailing whitespace (the embedding of
`str.strip()`). -/
def trimString (s : String) : String :=
  String.mk (((s.toList.dropWhile Char.isWhitespace).reverse.dropWhile
    Char.isWhitespace).reverse)

/-- Embedding of `.str.strip()` on one cell: strings lose surrounding whitespace,
NaN stays NaN, non-strings become NaN. -/
def stripCell (c : Cell) : Cell :=
  match c with
  | Cell.str s => Cell.str (trimString s)
  | _ => Cell.null

/-- Fixed configuration of the pipeline, verbatim from the source. -/
def columns_to_drop : List String := ["URL", "disabilities_included", "highlights"]

def rows_to_drop : List Nat := [0, 17, 31]

def columns_to_change : List String :=
  ["countries", "events", "participants_m", "participants_f", "participants"]

def replacement_names : List (String × String) :=
  [("UK", "Great Britain"),
   ("USA", "United States of America"),
   ("Korea", "Republic of Korea"),
   ("Russia", "Russian Federation"),
   ("China", "People\x27s Republic of China")]

/-- Embedding of `Series.replace(to_replace=replacement_names)` on one cell. -/
def replaceCountryCell (c : Cell) : Cell :=
  match c with
  | Cell.str s => Cell.str ((replacement_names.lookup s).getD s)
  | c => c

/-! ### DataFrame-level operations -/

/-- Embedding of `df.drop(columns=names)`: raises KeyError unless every name is a
column; otherwise removes those columns. -/
def dropColumns (df : DataFrame) (names : List String) : Except String DataFrame :=
  if names.all (fun n => df.cols.contains n) then
    Except.ok { cols := df.cols.filter (fun c => !names.contains c),
                rows := df.rows.map (fun r => r.filter (fun p => !names.contains p.1)) }
  else Except.error "KeyError: columns not found in axis"

/-- Embedding of `df.drop(index=labels)` on a fresh RangeIndex (labels are row
positions), followed by `reset_index(drop=True)`: raises KeyError unless
every label exists; otherwise removes the rows at those positions. -/
def dropIndex (df : DataFrame) (labels : List Nat) : Except String DataFrame :=
  if labels.all (fun i => i < df.rows.length) then
    Except.ok { cols := df.cols,
                rows := (df.rows.enum.filter (fun p => !labels.contains p.1)).map Prod.snd }
  else Except.error "KeyError: labels not found in axis"

def setEntry (name : String) (f : Cell → Cell) (r : Row) : Row :=
  r.map (fun p => if p.1 = name then (p.1, f p.2) else p)

/-- Total column rewrite `df[name] = f(df[name])`: KeyError if the column
is absent. -/
def mapCol (df : DataFrame) (name : String) (f : Cell → Cell) : Except String DataFrame :=
  if df.cols.contains name then
    Except.ok { df with rows := df.rows.map (setEntry name f) }
  else Except.error "KeyError: column not found in frame"

/-- Apply a fallible function to every element, aborting on the first
failure (the `Except` specialisation of `mapM`). -/
def mapExcept (f : α → Except String β) : List α → Except String (List β)
  | [] => Except.ok []
  | a :: l => do
    let b ← f a
    let bs ← mapExcept f l
    pure (b :: bs)

def setEntryE (name : String) (f : Cell → Except String Cell) (r : Row) : Except String Row :=
  mapExcept (fun p => if p.1 = name then (f p.2).map (fun v => (p.1, v)) else Except.ok p) r

/-- Fallible column rewrite `df[name] = f(df[name])` where `f` may raise
(date parsing, Int64 cast): KeyError if the column is absent, and any
cell-level failure aborts the whole operation. -/
def mapColE (df : DataFrame) (name : String) (f : Cell → Except String Cell) :
    Except String DataFrame :=
  if df.cols.contains name then
    (mapExcept (setEntryE name f) df.rows).map (fun rs => { df with rows := rs })
  else Except.error "KeyError: column not found in frame"

/-- Lines 151-153 of the source: compute the duration series and
`df.insert(df.columns.get_loc(end) + 1, duration, values)`. -/
def addDuration (df : DataFrame) : Except String DataFrame :=
  if df.cols.contains "end" ∧ df.cols.contains "start" then
    Except.ok { cols := df.cols.insertIdx (df.cols.indexOf "end" + 1) "duration",
                rows := df.rows.map (fun r =>
                  r.insertIdx (df.cols.indexOf "end" + 1)
                    ("duration", durCell (rowCell r "end") (rowCell r "start"))) }
  else Except.error "KeyError: start or end column not found"

def nullRow (cols : List String) : Row := cols.map (fun c => (c, Cell.null))

/-- Merge-key equality: pandas `merge` matches equal key values, and —
unlike SQL joins — it also matches a null key on the left against a null
key on the right (the merging guide warns about exactly this), so key
equality is plain cell equality, null included. -/
def cellMatch (a b : Cell) : Bool := decide (a = b)

/-- Embedding of `left.merge(right, how=left, left_on=leftOn, right_on=rightOn)`:
every left row is emitted once per matching right row, or once with the
right columns all null when nothing matches. -/
def merge (left right : DataFrame) (leftOn rightOn : String) : Except String DataFrame :=
  if left.cols.contains leftOn ∧ right.cols.contains rightOn then
    Except.ok { cols := left.cols ++ right.cols,
                rows := (left.rows.map (fun r =>
                  let ms := right.rows.filter
                    (fun rr => cellMatch (rowCell r leftOn) (rowCell rr rightOn))
                  if ms.isEmpty then [r ++ nullRow right.cols]
                  else ms.map (fun m => r ++ m))).flatten }
  else Except.error "MergeError: key column not found"

/-! ### The pipeline, step by step (lines 117-186 of the source) -/

def step_drop_columns (df : DataFrame) : Except String DataFrame :=
  dropColumns df columns_to_drop

def step_drop_rows (df : DataFrame) : Except String DataFrame :=
  dropIndex df rows_to_drop

/-- Lines 128-130: rewrite the one known-bad value, then strip whitespace. -/
def step_fix_type (df : DataFrame) : Except String DataFrame := do
  let d1 ← mapCol df "type" fixSummerCell
  mapCol d1 "type" stripCell

/-- Lines 134-137: the `astype(Int64)` loop over the five count columns. -/
def step_int64 (df : DataFrame) : Except String DataFrame :=
  columns_to_change.foldlM (fun d c => mapColE d c toInt64Cell) df

/-- Lines 146-147: `pd.to_datetime` on start then end. -/
def step_dates (df : DataFrame) : Except String DataFrame := do
  let d1 ← mapColE df "start" parseDateCell
  mapColE d1 "end" parseDateCell

def step_duration (df : DataFrame) : Except String DataFrame := addDuration df

/-- Line 169: country-name rewrites before the merge. -/
def step_replace_country (df : DataFrame) : Except String DataFrame :=
  mapCol df "country" replaceCountryCell

/-- Line 172: left merge against the NPC code table. -/
def step_merge (df npc : DataFrame) : Except String DataFrame :=
  merge df npc "country" "Name"

/-- Line 177: drop the redundant reference name column. -/
def step_drop_name (df : DataFrame) : Except String DataFrame :=
  dropColumns df ["Name"]

/-- The full pipeline `prepare_paralympics_data(df)`, with the reference table (read in the
source from `npc_codes.csv` with `usecols=[Code, Name]`) passed
explicitly; printing and the final `to_csv` are side effects outside the
data transformation. -/
def prepare_paralympics_data (df npc : DataFrame) : Except String DataFrame := do
  let d1 ← step_drop_columns df
  let d2 ← step_drop_rows d1
  let d3 ← step_fix_type d2
  let d4 ← step_int64 d3
  let d5 ← step_dates d4
  let d6 ← step_duration d5
  let d7 ← step_replace_country d6
  let d8 ← step_merge d7 npc
  step_drop_name d8

example : parseDMY "01/09/2000" = some 730364 := by decide
example : parseDMY "12/09/2000" = some 730375 := by decide
example : parseDMY "2000-09-01" = none := by decide

/-! ### Generic lemmas: lookups, keys, `setEntry`, `mapExcept` -/

theorem exceptOk_bind {α β : Type} (a : α) (f : α → Except String β) :
    (Except.ok a >>= f) = f a := rfl

theorem exceptError_bind {α β : Type} (e : String) (f : α → Except String β) :
    ((Except.error e : Except String α) >>= f) = Except.error e := rfl

theorem except_error_of_not_ok {α : Type} (x : Except String α)
    (h : ∀ v, x ≠ Except.ok v) : ∃ e, x = Except.error e := by
  cases x with
  | error e => exact ⟨e, rfl⟩
  | ok v => exact absurd rfl (h v)

theorem lookup_cons_ne {r : Row} {a k : String} {v : Cell} (h : k ≠ a) :
    ((a, v) :: r).lookup k = r.lookup k := by
  rw [List.lookup_cons]
  have hb : (k == a) = false := beq_eq_false_iff_ne.mpr h
  rw [hb]

theorem lookup_mem_keys {r : Row} {k : String} (h : k ∈ rowKeys r) :
    ∃ v, r.lookup k = some v := by
  have hs : (r.lookup k).isSome := by
    apply List.lookup_isSome_iff.mpr
    rcases List.mem_map.mp h with ⟨p, hp, hfst⟩
    exact ⟨p, hp, by simp [hfst]⟩
  exact Option.isSome_iff_exists.mp hs

theorem lookup_not_mem_keys {r : Row} {k : String} (h : k ∉ rowKeys r) :
    r.lookup k = none := by
  apply List.lookup_eq_none_iff.mpr
  intro p hp
  simp only [bne_iff_ne, ne_eq]
  intro hk
  exact h (hk ▸ List.mem_map_of_mem Prod.fst hp)

theorem mem_keys_of_lookup {r : Row} {k : String} {v : Cell}
    (h : r.lookup k = some v) : k ∈ rowKeys r := by
  by_contra hk
  rw [lookup_not_mem_keys hk] at h
  cases h

theorem lookup_append_left {r₁ r₂ : Row} {k : String} (h : k ∈ rowKeys r₁) :
    (r₁ ++ r₂).lookup k = r₁.lookup k := by
  rcases lookup_mem_keys h with ⟨v, hv⟩
  rw [List.lookup_append, hv]
  rfl

theorem lookup_append_right {r₁ r₂ : Row} {k : String} (h : k ∉ rowKeys r₁) :
    (r₁ ++ r₂).lookup k = r₂.lookup k := by
  rw [List.lookup_append, lookup_not_mem_keys h]
  rfl

theorem lookup_filter_keys {P : String → Bool} {k : String} (hP : P k = true) :
    ∀ r : Row, (r.filter (fun p => P p.1)).lookup k = r.lookup k := by
  intro r
  induction r with
  | nil => rfl
  | cons p t ih =>
    rcases p with ⟨a, v⟩
    rw [List.filter_cons]
    by_cases hk : k = a
    · subst hk
      simp only [hP, if_pos]
      rw [List.lookup_cons_self, List.lookup_cons_self]
    · by_cases hPa : P a = true
      · simp only [hPa, if_pos]
        rw [lookup_cons_ne hk, lookup_cons_ne hk, ih]
      · simp only [Bool.not_eq_true] at hPa
        simp only [hPa]
        rw [if_neg (by simp), lookup_cons_ne hk, ih]

theorem rowKeys_filter (P : String → Bool) :
    ∀ r : Row, rowKeys (r.filter (fun p => P p.1)) = (rowKeys r).filter P := by
  intro r
  induction r with
  | nil => rfl
  | cons p t ih =>
    rw [List.filter_cons]
    by_cases hPa : P p.1 = true
    · simp only [hPa, if_pos]
      simp only [rowKeys, List.map_cons] at *
      rw [List.filter_cons, hPa, ih]
      rfl
    · simp only [Bool.not_eq_true] at hPa
      simp only [hPa]
      rw [if_neg (by simp)]
      simp only [rowKeys, List.map_cons] at *
      rw [List.filter_cons, hPa, ih]
      rfl

theorem rowKeys_append (r₁ r₂ : Row) :
    rowKeys (r₁ ++ r₂) = rowKeys r₁ ++ rowKeys r₂ := by
  simp [rowKeys]

theorem rowKeys_setEntry (name : String) (f : Cell → Cell) :
    ∀ r : Row, rowKeys (setEntry name f r) = rowKeys r := by
  intro r
  induction r with
  | nil => rfl
  | cons p t ih =>
    simp only [setEntry, rowKeys, List.map_cons] at *
    by_cases h : p.1 = name <;> simp [h, ih]

theorem lookup_setEntry_ne (name : String) (f : Cell → Cell) {k : String}
    (hk : k ≠ name) : ∀ r : Row, (setEntry name f r).lookup k = r.lookup k := by
  intro r
  induction r with
  | nil => rfl
  | cons p t ih =>
    rcases p with ⟨a, v⟩
    simp only [setEntry, List.map_cons]
    by_cases ha : a = name
    · subst ha
      rw [if_pos rfl, lookup_cons_ne hk, lookup_cons_ne hk]
      exact ih
    · rw [if_neg (by simpa using ha)]
      by_cases hka : k = a
      · subst hka
        rw [List.lookup_cons_self, List.lookup_cons_self]
      · rw [lookup_cons_ne hka, lookup_cons_ne hka]
        exact ih

theorem lookup_setEntry_self (name : String) (f : Cell → Cell) :
    ∀ r : Row, (setEntry name f r).lookup name = (r.lookup name).map f := by
  intro r
  induction r with
  | nil => rfl
  | cons p t ih =>
    rcases p with ⟨a, v⟩
    simp only [setEntry, List.map_cons]
    by_cases ha : a = name
    · subst ha
      rw [if_pos rfl, List.lookup_cons_self, List.lookup_cons_self]
      rfl
    · rw [if_neg (by simpa using ha), lookup_cons_ne (fun h => ha h.symm),
        lookup_cons_ne (fun h => ha h.symm)]
      exact ih

theorem forall2_mem_left {α β : Type} {R : α → β → Prop} :
    ∀ {l : List α} {l' : List β}, List.Forall₂ R l l' → ∀ a ∈ l, ∃ b ∈ l', R a b := by
  intro l l' h
  induction h with
  | nil => intro a ha; cases ha
  | cons hR _ ih =>
    intro a ha
    rcases List.mem_cons.mp ha with rfl | ha'
    · exact ⟨_, List.mem_cons_self _ _, hR⟩
    · rcases ih a ha' with ⟨b, hb, hRb⟩
      exact ⟨b, List.mem_cons_of_mem _ hb, hRb⟩

theorem forall2_mem_right {α β : Type} {R : α → β → Prop} :
    ∀ {l : List α} {l' : List β}, List.Forall₂ R l l' → ∀ b ∈ l', ∃ a ∈ l, R a b := by
  intro l l' h
  induction h with
  | nil => intro b hb; cases hb
  | cons hR _ ih =>
    intro b hb
    rcases List.mem_cons.mp hb with rfl | hb'
    · exact ⟨_, List.mem_cons_self _ _, hR⟩
    · rcases ih b hb' with ⟨a, ha, hRa⟩
      exact ⟨a, List.mem_cons_of_mem _ ha, hRa⟩

theorem forall2_trans {α β γ : Type} {R : α → β → Prop} {S : β → γ → Prop}
    {T : α → γ → Prop} (hT : ∀ a b c, R a b → S b c → T a c) :
    ∀ {l₁ : List α} {l₂ : List β} {l₃ : List γ},
      List.Forall₂ R l₁ l₂ → List.Forall₂ S l₂ l₃ → List.Forall₂ T l₁ l₃ := by
  intro l₁ l₂ l₃ h₁
  induction h₁ generalizing l₃ with
  | nil =>
    intro h₂; cases h₂; exact List.Forall₂.nil
  | cons hR _ ih =>
    intro h₂
    cases h₂ with
    | cons hS htail => exact List.Forall₂.cons (hT _ _ _ hR hS) (ih htail)

theorem mapExcept_ok_iff {α β : Type} (f : α → Except String β) :
    ∀ (l : List α) (l' : List β), mapExcept f l = Except.ok l' ↔
      List.Forall₂ (fun a b => f a = Except.ok b) l l' := by
  intro l
  induction l with
  | nil =>
    intro l'
    constructor
    · intro h
      cases h
      exact List.Forall₂.nil
    · intro h
      cases h
      rfl
  | cons a t ih =>
    intro l'
    constructor
    · intro h
      cases hfa : f a with
      | error e =>
        rw [mapExcept, hfa, exceptError_bind] at h
        cases h
      | ok b =>
        rw [mapExcept, hfa, exceptOk_bind] at h
        cases hmt : mapExcept f t with
        | error e =>
          rw [hmt, exceptError_bind] at h
          cases h
        | ok bs =>
          rw [hmt, exceptOk_bind] at h
          cases h
          exact List.Forall₂.cons hfa ((ih bs).mp hmt)
    · intro h
      cases h with
      | cons hab htail =>
        rw [mapExcept, hab, exceptOk_bind, (ih _).mpr htail, exceptOk_bind]
        rfl

theorem mapExcept_ok_of_forall {α β : Type} (f : α → Except String β) :
    ∀ l : List α, (∀ a ∈ l, ∃ b, f a = Except.ok b) →
      ∃ l', mapExcept f l = Except.ok l' := by
  intro l
  induction l with
  | nil => exact fun _ => ⟨[], rfl⟩
  | cons a t ih =>
    intro h
    rcases h a (List.mem_cons_self a t) with ⟨b, hb⟩
    rcases ih (fun x hx => h x (List.mem_cons_of_mem a hx)) with ⟨bs, hbs⟩
    exact ⟨b :: bs, by rw [mapExcept, hb, exceptOk_bind, hbs, exceptOk_bind]; rfl⟩

theorem mapExcept_not_ok {α β : Type} (f : α → Except String β) {l : List α}
    {a : α} (ha : a ∈ l) (hf : ∀ b, f a ≠ Except.ok b) :
    ∀ l', mapExcept f l ≠ Except.ok l' := by
  intro l' h
  rcases forall2_mem_left ((mapExcept_ok_iff f l l').mp h) a ha with ⟨b, _, hb⟩
  exact hf b hb

theorem mapExcept_length {α β : Type} {f : α → Except String β} {l : List α}
    {l' : List β} (h : mapExcept f l = Except.ok l') : l'.length = l.length :=
  (List.Forall₂.length_eq ((mapExcept_ok_iff f l l').mp h)).symm

theorem setEntryE_ok_entries {name : String} {f : Cell → Except String Cell}
    {r r' : Row} (h : setEntryE name f r = Except.ok r') :
    List.Forall₂ (fun p q => q.1 = p.1 ∧
      ((p.1 ≠ name ∧ q.2 = p.2) ∨ (p.1 = name ∧ f p.2 = Except.ok q.2))) r r' := by
  have h2 := (mapExcept_ok_iff _ _ _).mp h
  apply List.Forall₂.imp _ h2
  intro p q hpq
  by_cases hp : p.1 = name
  · rw [if_pos hp] at hpq
    cases hfv : f p.2 with
    | error e => rw [hfv] at hpq; cases hpq
    | ok w =>
      rw [hfv] at hpq
      cases hpq
      exact ⟨rfl, Or.inr ⟨hp, rfl⟩⟩
  · rw [if_neg hp] at hpq
    cases hpq
    exact ⟨rfl, Or.inl ⟨hp, rfl⟩⟩

theorem keys_of_entries_rel {R : String × Cell → String × Cell → Prop}
    (hR : ∀ p q, R p q → q.1 = p.1) :
    ∀ {r r' : Row}, List.Forall₂ R r r' → rowKeys r' = rowKeys r := by
  intro r r' h
  induction h with
  | nil => rfl
  | cons hpq _ ih =>
    simp only [rowKeys, List.map_cons] at *
    rw [hR _ _ hpq, ih]

theorem lookup_of_entries_rel {name : String} {f : Cell → Except String Cell} :
    ∀ {r r' : Row}, List.Forall₂ (fun p q => q.1 = p.1 ∧
      ((p.1 ≠ name ∧ q.2 = p.2) ∨ (p.1 = name ∧ f p.2 = Except.ok q.2))) r r' →
    (∀ k, k ≠ name → r'.lookup k = r.lookup k) ∧
    (∀ v, r.lookup name = some v → ∃ w, f v = Except.ok w ∧ r'.lookup name = some w) := by
  intro r r' h
  induction h with
  | nil => exact ⟨fun _ _ => rfl, fun v hv => by cases hv⟩
  | cons hpq htail ih =>
    rename_i p q t t'
    rcases p with ⟨p1, p2⟩
    rcases q with ⟨q1, q2⟩
    obtain ⟨hq1, hrest⟩ := hpq
    simp only at hq1 hrest
    subst hq1
    constructor
    · intro k hk
      by_cases hkp : k = q1
      · subst hkp
        rw [List.lookup_cons_self, List.lookup_cons_self]
        rcases hrest with ⟨_, hv⟩ | ⟨hn, _⟩
        · rw [hv]
        · exact absurd hn hk
      · rw [lookup_cons_ne hkp, lookup_cons_ne hkp]
        exact ih.1 k hk
    · intro v hv
      by_cases hp1 : q1 = name
      · subst hp1
        rw [List.lookup_cons_self] at hv
        cases hv
        rcases hrest with ⟨hn, _⟩ | ⟨_, hf⟩
        · exact absurd rfl hn
        · exact ⟨q2, hf, by rw [List.lookup_cons_self]⟩
      · rw [lookup_cons_ne (fun h => hp1 h.symm)] at hv
        rcases ih.2 v hv with ⟨w, hw, hw'⟩
        exact ⟨w, hw, by rw [lookup_cons_ne (fun h => hp1 h.symm)]; exact hw'⟩

theorem setEntryE_ok_keys {name : String} {f : Cell → Except String Cell}
    {r r' : Row} (h : setEntryE name f r = Except.ok r') : rowKeys r' = rowKeys r :=
  keys_of_entries_rel (fun _ _ hpq => hpq.1) (setEntryE_ok_entries h)

theorem setEntryE_ok_lookup_ne {name : String} {f : Cell → Except String Cell}
    {r r' : Row} (h : setEntryE name f r = Except.ok r') {k : String} (hk : k ≠ name) :
    r'.lookup k = r.lookup k :=
  (lookup_of_entries_rel (setEntryE_ok_entries h)).1 k hk

theorem setEntryE_ok_lookup_some {name : String} {f : Cell → Except String Cell}
    {r r' : Row} (h : setEntryE name f r = Except.ok r') {v : Cell}
    (hv : r.lookup name = some v) :
    ∃ w, f v = Except.ok w ∧ r'.lookup name = some w :=
  (lookup_of_entries_rel (setEntryE_ok_entries h)).2 v hv

theorem setEntryE_ok_of_forall {name : String} {f : Cell → Except String Cell}
    {r : Row} (h : ∀ p ∈ r, p.1 = name → ∃ w, f p.2 = Except.ok w) :
    ∃ r', setEntryE name f r = Except.ok r' := by
  apply mapExcept_ok_of_forall
  intro p hp
  by_cases hpn : p.1 = name
  · rcases h p hp hpn with ⟨w, hw⟩
    exact ⟨(p.1, w), by rw [if_pos hpn, hw]; rfl⟩
  · exact ⟨p, by rw [if_neg hpn]⟩

theorem setEntryE_not_ok {name : String} {f : Cell → Except String Cell}
    {r : Row} {v : Cell} (hv : r.lookup name = some v)
    (hf : ∀ w, f v ≠ Except.ok w) : ∀ r', setEntryE name f r ≠ Except.ok r' := by
  intro r' h
  rcases setEntryE_ok_lookup_some h hv with ⟨w, hw, _⟩
  exact hf w hw

theorem lookup_insertIdx_ne {q : String × Cell} {k : String} (hk : k ≠ q.1) :
    ∀ (i : Nat) (r : Row), (r.insertIdx i q).lookup k = r.lookup k := by
  rcases q with ⟨q1, q2⟩
  replace hk : k ≠ q1 := hk
  intro i
  induction i with
  | zero =>
    intro r
    rw [List.insertIdx_zero, lookup_cons_ne hk]
  | succ n ih =>
    intro r
    cases r with
    | nil => rw [List.insertIdx_succ_nil]
    | cons p t =>
      rcases p with ⟨p1, p2⟩
      rw [List.insertIdx_succ_cons]
      by_cases hkp : k = p1
      · subst hkp
        rw [List.lookup_cons_self, List.lookup_cons_self]
      · rw [lookup_cons_ne hkp, lookup_cons_ne hkp, ih]

theorem lookup_insertIdx_self {k : String} {v : Cell} :
    ∀ (i : Nat) (r : Row), k ∉ rowKeys r → i ≤ r.length →
      (r.insertIdx i (k, v)).lookup k = some v := by
  intro i
  induction i with
  | zero =>
    intro r _ _
    rw [List.insertIdx_zero, List.lookup_cons_self]
  | succ n ih =>
    intro r hks hlen
    cases r with
    | nil => exact absurd hlen (by simp)
    | cons p t =>
      rcases p with ⟨p1, p2⟩
      rw [List.insertIdx_succ_cons]
      have hk1 : k ≠ p1 := by
        intro hc
        exact hks (by rw [hc]; exact List.mem_map_of_mem Prod.fst (List.mem_cons_self _ _))
      rw [lookup_cons_ne hk1]
      apply ih t
      · intro hc
        exact hks (List.mem_cons_of_mem _ (by simpa [rowKeys] using hc))
      · simpa using Nat.le_of_succ_le_succ hlen

theorem rowKeys_insertIdx (q : String × Cell) :
    ∀ (i : Nat) (r : Row), rowKeys (r.insertIdx i q) = (rowKeys r).insertIdx i q.1 := by
  intro i
  induction i with
  | zero =>
    intro r
    rw [List.insertIdx_zero, List.insertIdx_zero]
    rfl
  | succ n ih =>
    intro r
    cases r with
    | nil => rw [List.insertIdx_succ_nil]; rfl
    | cons p t =>
      rw [List.insertIdx_succ_cons]
      simp only [rowKeys, List.map_cons] at *
      rw [List.insertIdx_succ_cons, ih]

theorem indexOf_insertIdx_self {x : String} :
    ∀ (i : Nat) (l : List String), x ∉ l → i ≤ l.length →
      (l.insertIdx i x).indexOf x = i := by
  intro i
  induction i with
  | zero =>
    intro l _ _
    rw [List.insertIdx_zero, List.indexOf_cons_self]
  | succ n ih =>
    intro l hx hlen
    cases l with
    | nil => exact absurd hlen (by simp)
    | cons a t =>
      rw [List.insertIdx_succ_cons]
      have hax : a ≠ x := fun hc => hx (hc ▸ List.mem_cons_self _ _)
      rw [List.indexOf_cons_ne _ hax, ih t (fun hc => hx (List.mem_cons_of_mem _ hc))
        (by simpa using Nat.le_of_succ_le_succ hlen)]

theorem indexOf_insertIdx_of_lt {x y : String} :
    ∀ (i : Nat) (l : List String), l.indexOf y < i →
      (l.insertIdx i x).indexOf y = l.indexOf y := by
  intro i
  induction i with
  | zero => intro l h; exact absurd h (by omega)
  | succ n ih =>
    intro l h
    cases l with
    | nil => rw [List.insertIdx_succ_nil]
    | cons a t =>
      rw [List.insertIdx_succ_cons]
      by_cases hay : a = y
      · rw [List.indexOf_cons_eq _ hay, List.indexOf_cons_eq _ hay]
      · rw [List.indexOf_cons_ne _ hay, List.indexOf_cons_ne _ hay] at *
        rw [ih t (by omega)]

theorem rowKeys_nullRow (cols : List String) : rowKeys (nullRow cols) = cols := by
  induction cols with
  | nil => rfl
  | cons c t ih =>
    simp only [rowKeys, nullRow, List.map_cons] at *
    rw [ih]

theorem rowCell_nullRow (k : String) : ∀ cols : List String,
    rowCell (nullRow cols) k = Cell.null := by
  intro cols
  induction cols with
  | nil => rfl
  | cons c t ih =>
    simp only [nullRow, List.map_cons]
    by_cases hk : k = c
    · subst hk
      simp [rowCell, List.lookup_cons_self]
    · simp only [rowCell] at *
      rw [lookup_cons_ne hk]
      exact ih

theorem rowCell_setEntry_ne (name : String) (f : Cell → Cell) (k : String)
    (hk : k ≠ name) (r : Row) : rowCell (setEntry name f r) k = rowCell r k := by
  rw [rowCell, lookup_setEntry_ne name f hk, rowCell]

theorem rowCell_append_left (k : String) {r₁ r₂ : Row} (h : k ∈ rowKeys r₁) :
    rowCell (r₁ ++ r₂) k = rowCell r₁ k := by
  rw [rowCell, lookup_append_left h, rowCell]

theorem rowCell_filter_keys (P : String → Bool) (k : String) (hP : P k = true)
    (r : Row) : rowCell (r.filter (fun p => P p.1)) k = rowCell r k := by
  rw [rowCell, lookup_filter_keys hP, rowCell]

theorem rowCell_insertIdx_pair_ne (nm : String) (v : Cell) (k : String)
    (hk : k ≠ nm) (i : Nat) (r : Row) :
    rowCell (r.insertIdx i (nm, v)) k = rowCell r k := by
  rw [rowCell, lookup_insertIdx_ne hk, rowCell]

/-! ### Specifications of the DataFrame operations -/

theorem dropColumns_ok {df : DataFrame} {names : List String}
    (h : ∀ n ∈ names, n ∈ df.cols) :
    dropColumns df names = Except.ok
      { cols := df.cols.filter (fun c => !names.contains c),
        rows := df.rows.map (fun r => r.filter (fun p => !names.contains p.1)) } := by
  rw [dropColumns, if_pos]
  apply List.all_eq_true.mpr
  intro n hn
  simpa using h n hn

theorem dropColumns_error {df : DataFrame} {names : List String}
    (h : ∃ n ∈ names, n ∉ df.cols) :
    dropColumns df names = Except.error "KeyError: columns not found in axis" := by
  rw [dropColumns, if_neg]
  intro hc
  rcases h with ⟨n, hn, hnc⟩
  exact hnc (by simpa using List.all_eq_true.mp hc n hn)

theorem dropColumns_ok_inv {df : DataFrame} {names : List String} {d : DataFrame}
    (h : dropColumns df names = Except.ok d) :
    (∀ n ∈ names, n ∈ df.cols) ∧
    d.cols = df.cols.filter (fun c => !names.contains c) ∧
    d.rows = df.rows.map (fun r => r.filter (fun p => !names.contains p.1)) := by
  rw [dropColumns] at h
  by_cases hc : (names.all (fun n => df.cols.contains n)) = true
  · rw [if_pos hc] at h
    cases h
    exact ⟨fun n hn => by simpa using List.all_eq_true.mp hc n hn, rfl, rfl⟩
  · rw [if_neg hc] at h
    cases h

theorem wf_dropColumns {df : DataFrame} {names : List String} {d : DataFrame}
    (hwf : df.Wf) (h : dropColumns df names = Except.ok d) : d.Wf := by
  obtain ⟨_, hcols, hrows⟩ := dropColumns_ok_inv h
  intro r hr
  rw [hrows] at hr
  rcases List.mem_map.mp hr with ⟨r0, hr0, rfl⟩
  rw [rowKeys_filter (fun c => !names.contains c) r0, hwf r0 hr0, hcols]

theorem dropIndex_ok_inv {df : DataFrame} {labels : List Nat} {d : DataFrame}
    (h : dropIndex df labels = Except.ok d) :
    (∀ i ∈ labels, i < df.rows.length) ∧ d.cols = df.cols ∧
    d.rows = (df.rows.enum.filter (fun p => !labels.contains p.1)).map Prod.snd := by
  rw [dropIndex] at h
  by_cases hc : (labels.all (fun i => decide (i < df.rows.length))) = true
  · rw [if_pos hc] at h
    cases h
    exact ⟨fun i hi => by simpa using List.all_eq_true.mp hc i hi, rfl, rfl⟩
  · rw [if_neg hc] at h
    cases h

theorem dropIndex_error {df : DataFrame} {labels : List Nat}
    (h : ∃ i ∈ labels, ¬ i < df.rows.length) :
    dropIndex df labels = Except.error "KeyError: labels not found in axis" := by
  rw [dropIndex, if_neg]
  intro hc
  rcases h with ⟨i, hi, hlt⟩
  exact hlt (by simpa using List.all_eq_true.mp hc i hi)

theorem dropIndex_sublist {df : DataFrame} {labels : List Nat} {d : DataFrame}
    (h : dropIndex df labels = Except.ok d) : d.rows.Sublist df.rows := by
  rw [(dropIndex_ok_inv h).2.2]
  have h1 := (List.filter_sublist (l := df.rows.enum)
    (p := fun p => !labels.contains p.1)).map Prod.snd
  rwa [List.enum_map_snd] at h1

theorem wf_dropIndex {df : DataFrame} {labels : List Nat} {d : DataFrame}
    (hwf : df.Wf) (h : dropIndex df labels = Except.ok d) : d.Wf := by
  intro r hr
  rw [(dropIndex_ok_inv h).2.1]
  exact hwf r ((dropIndex_sublist h).subset hr)

theorem mapCol_ok {df : DataFrame} {name : String} {f : Cell → Cell}
    (h : name ∈ df.cols) :
    mapCol df name f = Except.ok { df with rows := df.rows.map (setEntry name f) } := by
  rw [mapCol, if_pos (by simpa using h)]

theorem mapCol_ok_inv {df : DataFrame} {name : String} {f : Cell → Cell} {d : DataFrame}
    (h : mapCol df name f = Except.ok d) :
    name ∈ df.cols ∧ d.cols = df.cols ∧ d.rows = df.rows.map (setEntry name f) := by
  rw [mapCol] at h
  by_cases hc : (df.cols.contains name) = true
  · rw [if_pos hc] at h
    cases h
    exact ⟨by simpa using hc, rfl, rfl⟩
  · rw [if_neg hc] at h
    cases h

theorem wf_mapCol {df : DataFrame} {name : String} {f : Cell → Cell} {d : DataFrame}
    (hwf : df.Wf) (h : mapCol df name f = Except.ok d) : d.Wf := by
  obtain ⟨_, hcols, hrows⟩ := mapCol_ok_inv h
  intro r hr
  rw [hrows] at hr
  rcases List.mem_map.mp hr with ⟨r0, hr0, rfl⟩
  rw [rowKeys_setEntry, hwf r0 hr0, hcols]

theorem mapColE_ok_inv {df : DataFrame} {name : String} {f : Cell → Except String Cell}
    {d : DataFrame} (h : mapColE df name f = Except.ok d) :
    name ∈ df.cols ∧ d.cols = df.cols ∧
    List.Forall₂ (fun r r' => setEntryE name f r = Except.ok r') df.rows d.rows := by
  rw [mapColE] at h
  by_cases hc : (df.cols.contains name) = true
  · rw [if_pos hc] at h
    cases hm : mapExcept (setEntryE name f) df.rows with
    | error e =>
      rw [hm] at h
      cases h
    | ok rs =>
      rw [hm] at h
      cases h
      exact ⟨by simpa using hc, rfl, (mapExcept_ok_iff _ _ _).mp hm⟩
  · rw [if_neg hc] at h
    cases h

theorem mapColE_ok_of_forall {df : DataFrame} {name : String}
    {f : Cell → Except String Cell} (hname : name ∈ df.cols)
    (h : ∀ r ∈ df.rows, ∀ p ∈ r, p.1 = name → ∃ w, f p.2 = Except.ok w) :
    ∃ d, mapColE df name f = Except.ok d := by
  rcases mapExcept_ok_of_forall (setEntryE name f) df.rows
    (fun r hr => setEntryE_ok_of_forall (h r hr)) with ⟨rs, hrs⟩
  refine ⟨{ df with rows := rs }, ?_⟩
  rw [mapColE, if_pos (by simpa using hname), hrs]
  rfl

theorem mapColE_not_ok {df : DataFrame} {name : String} {f : Cell → Except String Cell}
    {r : Row} (hr : r ∈ df.rows) {v : Cell} (hv : r.lookup name = some v)
    (hf : ∀ w, f v ≠ Except.ok w) : ∀ d, mapColE df name f ≠ Except.ok d := by
  intro d h
  obtain ⟨_, _, h2⟩ := mapColE_ok_inv h
  rcases forall2_mem_left h2 r hr with ⟨r', _, hr'⟩
  exact setEntryE_not_ok hv hf r' hr'

theorem wf_mapColE {df : DataFrame} {name : String} {f : Cell → Except String Cell}
    {d : DataFrame} (hwf : df.Wf) (h : mapColE df name f = Except.ok d) : d.Wf := by
  obtain ⟨_, hcols, h2⟩ := mapColE_ok_inv h
  intro r' hr'
  rcases forall2_mem_right h2 r' hr' with ⟨r, hr, hsE⟩
  rw [setEntryE_ok_keys hsE, hwf r hr, hcols]

theorem mapColE_length {df : DataFrame} {name : String} {f : Cell → Except String Cell}
    {d : DataFrame} (h : mapColE df name f = Except.ok d) :
    d.rows.length = df.rows.length :=
  ((mapColE_ok_inv h).2.2.length_eq).symm

theorem addDuration_ok_inv {df : DataFrame} {d : DataFrame}
    (h : addDuration df = Except.ok d) :
    "end" ∈ df.cols ∧ "start" ∈ df.cols ∧
    d.cols = df.cols.insertIdx (df.cols.indexOf "end" + 1) "duration" ∧
    d.rows = df.rows.map (fun r => r.insertIdx (df.cols.indexOf "end" + 1)
      ("duration", durCell (rowCell r "end") (rowCell r "start"))) := by
  rw [addDuration] at h
  by_cases hc : df.cols.contains "end" = true ∧ df.cols.contains "start" = true
  · rw [if_pos hc] at h
    cases h
    exact ⟨by simpa using hc.1, by simpa using hc.2, rfl, rfl⟩
  · rw [if_neg hc] at h
    cases h

theorem merge_ok_inv {left right : DataFrame} {lo ro : String} {m : DataFrame}
    (h : merge left right lo ro = Except.ok m) :
    lo ∈ left.cols ∧ ro ∈ right.cols ∧ m.cols = left.cols ++ right.cols ∧
    m.rows = (left.rows.map (fun r =>
      let ms := right.rows.filter (fun rr => cellMatch (rowCell r lo) (rowCell rr ro))
      if ms.isEmpty then [r ++ nullRow right.cols]
      else ms.map (fun mr => r ++ mr))).flatten := by
  rw [merge] at h
  by_cases hc : left.cols.contains lo = true ∧ right.cols.contains ro = true
  · rw [if_pos hc] at h
    cases h
    exact ⟨by simpa using hc.1, by simpa using hc.2, rfl, rfl⟩
  · rw [if_neg hc] at h
    cases h

theorem merge_ok {left right : DataFrame} {lo ro : String}
    (hlo : lo ∈ left.cols) (hro : ro ∈ right.cols) :
    ∃ m, merge left right lo ro = Except.ok m := by
  rw [merge, if_pos ⟨by simpa using hlo, by simpa using hro⟩]
  exact ⟨_, rfl⟩

theorem merge_row_decomp {left right : DataFrame} {lo ro : String} {m : DataFrame}
    (h : merge left right lo ro = Except.ok m) :
    ∀ row ∈ m.rows, ∃ r ∈ left.rows, ∃ ext, row = r ++ ext ∧
      (ext = nullRow right.cols ∨ ext ∈ right.rows) := by
  intro row hrow
  rw [(merge_ok_inv h).2.2.2] at hrow
  rcases List.mem_flatten.mp hrow with ⟨block, hblock, hrowb⟩
  rcases List.mem_map.mp hblock with ⟨r, hr, rfl⟩
  by_cases he : (right.rows.filter
      (fun rr => cellMatch (rowCell r lo) (rowCell rr ro))).isEmpty = true
  · simp only [he, if_pos] at hrowb
    rcases List.mem_singleton.mp hrowb with rfl
    exact ⟨r, hr, nullRow right.cols, rfl, Or.inl rfl⟩
  · simp only [he] at hrowb
    rw [if_neg (by simp)] at hrowb
    rcases List.mem_map.mp hrowb with ⟨mr, hmr, rfl⟩
    exact ⟨r, hr, mr, rfl, Or.inr (List.mem_of_mem_filter hmr)⟩

theorem merge_left_mem {left right : DataFrame} {lo ro : String} {m : DataFrame}
    (h : merge left right lo ro = Except.ok m) :
    ∀ r ∈ left.rows, ∃ ext, r ++ ext ∈ m.rows ∧
      (ext = nullRow right.cols ∨ ext ∈ right.rows.filter
        (fun rr => cellMatch (rowCell r lo) (rowCell rr ro))) := by
  intro r hr
  rw [(merge_ok_inv h).2.2.2]
  set g := fun r : Row =>
    let ms := right.rows.filter (fun rr => cellMatch (rowCell r lo) (rowCell rr ro))
    if ms.isEmpty then [r ++ nullRow right.cols] else ms.map (fun mr => r ++ mr) with hg
  have hmem : ∀ x, x ∈ g r → x ∈ (left.rows.map g).flatten := by
    intro x hx
    exact List.mem_flatten.mpr ⟨g r, List.mem_map_of_mem g hr, hx⟩
  by_cases he : (right.rows.filter
      (fun rr => cellMatch (rowCell r lo) (rowCell rr ro))).isEmpty = true
  · refine ⟨nullRow right.cols, hmem _ ?_, Or.inl rfl⟩
    rw [hg]
    simp only [he, if_pos]
    exact List.mem_singleton.mpr rfl
  · rw [Bool.not_eq_true] at he
    have hne : (right.rows.filter
        (fun rr => cellMatch (rowCell r lo) (rowCell rr ro))) ≠ [] := by
      intro hnil
      rw [hnil] at he
      cases he
    rcases List.exists_mem_of_ne_nil _ hne with ⟨mr, hmr⟩
    refine ⟨mr, hmem _ ?_, Or.inr hmr⟩
    rw [hg]
    simp only [he]
    rw [if_neg (by simp)]
    exact List.mem_map_of_mem _ hmr

theorem merge_unmatched_mem {left right : DataFrame} {lo ro : String} {m : DataFrame}
    (h : merge left right lo ro = Except.ok m) {r : Row} (hr : r ∈ left.rows)
    (hmiss : ∀ rr ∈ right.rows, cellMatch (rowCell r lo) (rowCell rr ro) = false) :
    r ++ nullRow right.cols ∈ m.rows := by
  rw [(merge_ok_inv h).2.2.2]
  apply List.mem_flatten.mpr
  refine ⟨_, List.mem_map_of_mem _ hr, ?_⟩
  have he : (right.rows.filter
      (fun rr => cellMatch (rowCell r lo) (rowCell rr ro))) = [] :=
    List.filter_eq_nil_iff.mpr (fun rr hrr => by simp [hmiss rr hrr])
  simp only [he]
  exact List.mem_singleton.mpr rfl

theorem merge_matched_mem {left right : DataFrame} {lo ro : String} {m : DataFrame}
    (h : merge left right lo ro = Except.ok m) {r : Row} (hr : r ∈ left.rows)
    {rr : Row} (hrr : rr ∈ right.rows.filter
      (fun x => cellMatch (rowCell r lo) (rowCell x ro))) :
    r ++ rr ∈ m.rows := by
  rw [(merge_ok_inv h).2.2.2]
  apply List.mem_flatten.mpr
  refine ⟨_, List.mem_map_of_mem _ hr, ?_⟩
  have hne : (right.rows.filter
      (fun x => cellMatch (rowCell r lo) (rowCell x ro))).isEmpty = false :=
    List.isEmpty_eq_false_iff_exists_mem.mpr ⟨rr, hrr⟩
  simp only [hne]
  rw [if_neg (by simp)]
  exact List.mem_map_of_mem _ hrr

theorem wf_merge {left right : DataFrame} {lo ro : String} {m : DataFrame}
    (hwfl : left.Wf) (hwfr : right.Wf) (h : merge left right lo ro = Except.ok m) :
    m.Wf := by
  intro row hrow
  rcases merge_row_decomp h row hrow with ⟨r, hr, ext, rfl, hext⟩
  rw [rowKeys_append, hwfl r hr, (merge_ok_inv h).2.2.1]
  rcases hext with rfl | hmem
  · rw [rowKeys_nullRow]
  · rw [hwfr ext hmem]

theorem flatten_length_ones {α : Type} (g : α → List Row) :
    ∀ l : List α, (∀ x ∈ l, (g x).length = 1) →
      ((l.map g).flatten).length = l.length := by
  intro l
  induction l with
  | nil => intro _; rfl
  | cons a t ih =>
    intro h
    rw [List.map_cons, List.flatten_cons, List.length_append,
      h a (List.mem_cons_self a t), ih (fun x hx => h x (List.mem_cons_of_mem a hx)),
      List.length_cons]
    omega

theorem merge_length_of_unique {left right : DataFrame} {lo ro : String} {m : DataFrame}
    (h : merge left right lo ro = Except.ok m)
    (huniq : ∀ r ∈ left.rows, (right.rows.filter
      (fun rr => cellMatch (rowCell r lo) (rowCell rr ro))).length ≤ 1) :
    m.rows.length = left.rows.length := by
  rw [(merge_ok_inv h).2.2.2]
  apply flatten_length_ones
  intro r hr
  by_cases he : (right.rows.filter
      (fun rr => cellMatch (rowCell r lo) (rowCell rr ro))).isEmpty = true
  · simp only [he, if_pos]
    rfl
  · rw [Bool.not_eq_true] at he
    simp only [he]
    rw [if_neg (by simp), List.length_map]
    have h1 : 1 ≤ (right.rows.filter
        (fun rr => cellMatch (rowCell r lo) (rowCell rr ro))).length := by
      rcases List.isEmpty_eq_false_iff_exists_mem.mp he with ⟨x, hx⟩
      exact List.length_pos.mpr (List.ne_nil_of_mem hx)
    exact Nat.le_antisymm (huniq r hr) h1

/-! ### Inversion of the pipeline -/

theorem prepare_ok_chain {df npc out : DataFrame}
    (h : prepare_paralympics_data df npc = Except.ok out) :
    ∃ d1 d2 d3 d4 d5 d6 d7 d8,
      step_drop_columns df = Except.ok d1 ∧
      step_drop_rows d1 = Except.ok d2 ∧
      step_fix_type d2 = Except.ok d3 ∧
      step_int64 d3 = Except.ok d4 ∧
      step_dates d4 = Except.ok d5 ∧
      step_duration d5 = Except.ok d6 ∧
      step_replace_country d6 = Except.ok d7 ∧
      step_merge d7 npc = Except.ok d8 ∧
      step_drop_name d8 = Except.ok out := by
  rw [prepare_paralympics_data] at h
  cases h1 : step_drop_columns df with
  | error e => rw [h1, exceptError_bind] at h; cases h
  | ok d1 =>
  rw [h1, exceptOk_bind] at h
  cases h2 : step_drop_rows d1 with
  | error e => rw [h2, exceptError_bind] at h; cases h
  | ok d2 =>
  rw [h2, exceptOk_bind] at h
  cases h3 : step_fix_type d2 with
  | error e => rw [h3, exceptError_bind] at h; cases h
  | ok d3 =>
  rw [h3, exceptOk_bind] at h
  cases h4 : step_int64 d3 with
  | error e => rw [h4, exceptError_bind] at h; cases h
  | ok d4 =>
  rw [h4, exceptOk_bind] at h
  cases h5 : step_dates d4 with
  | error e => rw [h5, exceptError_bind] at h; cases h
  | ok d5 =>
  rw [h5, exceptOk_bind] at h
  cases h6 : step_duration d5 with
  | error e => rw [h6, exceptError_bind] at h; cases h
  | ok d6 =>
  rw [h6, exceptOk_bind] at h
  cases h7 : step_replace_country d6 with
  | error e => rw [h7, exceptError_bind] at h; cases h
  | ok d7 =>
  rw [h7, exceptOk_bind] at h
  cases h8 : step_merge d7 npc with
  | error e => rw [h8, exceptError_bind] at h; cases h
  | ok d8 =>
  rw [h8, exceptOk_bind] at h
  exact ⟨d1, d2, d3, d4, d5, d6, d7, d8, rfl, h2, h3, h4, h5, h6, h7, h8, h⟩

theorem prepare_error_at_dates {df npc d1 d2 d3 d4 : DataFrame}
    (h1 : step_drop_columns df = Except.ok d1)
    (h2 : step_drop_rows d1 = Except.ok d2)
    (h3 : step_fix_type d2 = Except.ok d3)
    (h4 : step_int64 d3 = Except.ok d4)
    {e : String} (h5 : step_dates d4 = Except.error e) :
    prepare_paralympics_data df npc = Except.error e := by
  rw [prepare_paralympics_data, h1, exceptOk_bind, h2, exceptOk_bind, h3, exceptOk_bind,
    h4, exceptOk_bind, h5, exceptError_bind]

theorem step_fix_type_inv {df d : DataFrame} (h : step_fix_type df = Except.ok d) :
    "type" ∈ df.cols ∧ d.cols = df.cols ∧
    d.rows = (df.rows.map (setEntry "type" fixSummerCell)).map (setEntry "type" stripCell) := by
  rw [step_fix_type] at h
  cases h1 : mapCol df "type" fixSummerCell with
  | error e => rw [h1, exceptError_bind] at h; cases h
  | ok m1 =>
    rw [h1, exceptOk_bind] at h
    obtain ⟨ha, hb, hc⟩ := mapCol_ok_inv h1
    obtain ⟨_, hb2, hc2⟩ := mapCol_ok_inv h
    exact ⟨ha, by rw [hb2, hb], by rw [hc2, hc]⟩

theorem step_dates_inv {df d : DataFrame} (h : step_dates df = Except.ok d) :
    ∃ d1, mapColE df "start" parseDateCell = Except.ok d1 ∧
      mapColE d1 "end" parseDateCell = Except.ok d := by
  rw [step_dates] at h
  cases h1 : mapColE df "start" parseDateCell with
  | error e => rw [h1, exceptError_bind] at h; cases h
  | ok m1 =>
    rw [h1, exceptOk_bind] at h
    exact ⟨m1, rfl, h⟩

theorem step_int64_inv {df d : DataFrame} (h : step_int64 df = Except.ok d) :
    ∃ e1 e2 e3 e4,
      mapColE df "countries" toInt64Cell = Except.ok e1 ∧
      mapColE e1 "events" toInt64Cell = Except.ok e2 ∧
      mapColE e2 "participants_m" toInt64Cell = Except.ok e3 ∧
      mapColE e3 "participants_f" toInt64Cell = Except.ok e4 ∧
      mapColE e4 "participants" toInt64Cell = Except.ok d := by
  rw [step_int64, columns_to_change] at h
  simp only [List.foldlM] at h
  cases g1 : mapColE df "countries" toInt64Cell with
  | error e => rw [g1, exceptError_bind] at h; cases h
  | ok e1 =>
  rw [g1, exceptOk_bind] at h
  cases g2 : mapColE e1 "events" toInt64Cell with
  | error e => rw [g2, exceptError_bind] at h; cases h
  | ok e2 =>
  rw [g2, exceptOk_bind] at h
  cases g3 : mapColE e2 "participants_m" toInt64Cell with
  | error e => rw [g3, exceptError_bind] at h; cases h
  | ok e3 =>
  rw [g3, exceptOk_bind] at h
  cases g4 : mapColE e3 "participants_f" toInt64Cell with
  | error e => rw [g4, exceptError_bind] at h; cases h
  | ok e4 =>
  rw [g4, exceptOk_bind] at h
  cases g5 : mapColE e4 "participants" toInt64Cell with
  | error e => rw [g5, exceptError_bind] at h; cases h
  | ok e5 =>
  rw [g5, exceptOk_bind] at h
  cases h
  exact ⟨e1, e2, e3, e4, rfl, g2, g3, g4, g5⟩

theorem step_int64_frame {df d : DataFrame} (hwf : df.Wf)
    (h : step_int64 df = Except.ok d) :
    d.Wf ∧ d.cols = df.cols ∧ d.rows.length = df.rows.length := by
  rcases step_int64_inv h with ⟨e1, e2, e3, e4, g1, g2, g3, g4, g5⟩
  have w1 := wf_mapColE hwf g1
  have w2 := wf_mapColE w1 g2
  have w3 := wf_mapColE w2 g3
  have w4 := wf_mapColE w3 g4
  have w5 := wf_mapColE w4 g5
  refine ⟨w5, ?_, ?_⟩
  · rw [(mapColE_ok_inv g5).2.1, (mapColE_ok_inv g4).2.1, (mapColE_ok_inv g3).2.1,
      (mapColE_ok_inv g2).2.1, (mapColE_ok_inv g1).2.1]
  · rw [mapColE_length g5, mapColE_length g4, mapColE_length g3,
      mapColE_length g2, mapColE_length g1]

theorem step_dates_frame {df d : DataFrame} (hwf : df.Wf)
    (h : step_dates df = Except.ok d) :
    d.Wf ∧ d.cols = df.cols ∧ d.rows.length = df.rows.length := by
  rcases step_dates_inv h with ⟨m1, g1, g2⟩
  have w1 := wf_mapColE hwf g1
  have w2 := wf_mapColE w1 g2
  exact ⟨w2, by rw [(mapColE_ok_inv g2).2.1, (mapColE_ok_inv g1).2.1],
    by rw [mapColE_length g2, mapColE_length g1]⟩

theorem step_fix_type_frame {df d : DataFrame} (hwf : df.Wf)
    (h : step_fix_type df = Except.ok d) :
    d.Wf ∧ d.cols = df.cols ∧ d.rows.length = df.rows.length := by
  obtain ⟨_, hcols, hrows⟩ := step_fix_type_inv h
  refine ⟨?_, hcols, by rw [hrows]; simp⟩
  intro r hr
  rw [hrows] at hr
  rcases List.mem_map.mp hr with ⟨r1, hr1, rfl⟩
  rcases List.mem_map.mp hr1 with ⟨r0, hr0, rfl⟩
  rw [rowKeys_setEntry, rowKeys_setEntry, hwf r0 hr0, hcols]

/-! ### Claim theorems -/

/-- C8: if any of the fixed column names designated for pruning is absent
from the input table, or any of the fixed row positions 0, 17, 31 is
absent (the table has fewer than 32 rows), `prepare_paralympics_data`
fails fast with an error instead of silently skipping the missing column
or row. -/
theorem C8_missing_pruned_labels_fail_fast (df npc : DataFrame)
    (h : (∃ c ∈ columns_to_drop, c ∉ df.cols) ∨ df.rows.length < 32) :
    ∃ e, prepare_paralympics_data df npc = Except.error e := by
  apply except_error_of_not_ok
  intro out hok
  rcases prepare_ok_chain hok with ⟨d1, d2, d3, d4, d5, d6, d7, d8, h1, h2, _⟩
  rcases h with hcol | hrow
  · rw [show step_drop_columns df = dropColumns df columns_to_drop from rfl,
      dropColumns_error hcol] at h1
    cases h1
  · obtain ⟨_, _, hrows⟩ := dropColumns_ok_inv h1
    have hlen : d1.rows.length = df.rows.length := by rw [hrows]; simp
    obtain ⟨hlt, _, _⟩ := dropIndex_ok_inv h2
    have h31 := hlt 31 (by decide)
    omega

/-- C5: the reference join performed by `prepare_paralympics_data`
(`step_merge`) is a left outer join on the country name: it succeeds (the
run continues), every row of the main table appears in the joined result
extended by some right-hand part, and a row whose country matches no
reference row is kept, extended by an all-null right-hand part whose code
cell is null. -/
theorem C5_merge_left_outer (left npc : DataFrame)
    (hlo : "country" ∈ left.cols) (hro : "Name" ∈ npc.cols) :
    ∃ m, step_merge left npc = Except.ok m ∧
      (∀ r ∈ left.rows, ∃ ext, r ++ ext ∈ m.rows) ∧
      (∀ r ∈ left.rows,
        (∀ rr ∈ npc.rows, cellMatch (rowCell r "country") (rowCell rr "Name") = false) →
        r ++ nullRow npc.cols ∈ m.rows ∧
          ("Code" ∉ rowKeys r → rowCell (r ++ nullRow npc.cols) "Code" = Cell.null)) := by
  rcases merge_ok hlo hro with ⟨m, hm⟩
  refine ⟨m, hm, ?_, ?_⟩
  · intro r hr
    rcases merge_left_mem hm r hr with ⟨ext, hmem, _⟩
    exact ⟨ext, hmem⟩
  · intro r hr hmiss
    refine ⟨merge_unmatched_mem hm hr hmiss, ?_⟩
    intro hCode
    rw [rowCell, lookup_append_right hCode]
    exact rowCell_nullRow "Code" npc.cols

/-- C7: the country-name rewrite dictionary is applied to the country
column (`step_replace_country`) before the join (`step_merge`), so a raw
row whose country is UK, joined against a reference table whose single
entry named Great Britain carries code GBR, produces an output row whose
code cell is GBR. -/
theorem C7_country_rewrite_before_join (df npc d7 : DataFrame) (r gbRow : Row)
    (hr : r ∈ df.rows)
    (huk : r.lookup "country" = some (Cell.str "UK"))
    (hrep : step_replace_country df = Except.ok d7)
    (hro : "Name" ∈ npc.cols)
    (hgbfilter : npc.rows.filter
      (fun rr => cellMatch (Cell.str "Great Britain") (rowCell rr "Name")) = [gbRow])
    (hgbcode : gbRow.lookup "Code" = some (Cell.str "GBR"))
    (hnoCode : "Code" ∉ rowKeys r) :
    ∃ m, step_merge d7 npc = Except.ok m ∧
      ∃ row ∈ m.rows, rowCell row "country" = Cell.str "Great Britain" ∧
        rowCell row "Code" = Cell.str "GBR" := by
  obtain ⟨hc, hcols7, hrows7⟩ := mapCol_ok_inv hrep
  have hr7 : setEntry "country" replaceCountryCell r ∈ d7.rows := by
    rw [hrows7]
    exact List.mem_map_of_mem _ hr
  have hlook : (setEntry "country" replaceCountryCell r).lookup "country"
      = some (Cell.str "Great Britain") := by
    rw [lookup_setEntry_self, huk]
    decide
  have hcell : rowCell (setEntry "country" replaceCountryCell r) "country"
      = Cell.str "Great Britain" := by
    rw [rowCell, hlook]
    rfl
  have hcol7 : "country" ∈ d7.cols := by
    rw [hcols7]
    exact hc
  rcases merge_ok hcol7 hro with ⟨m, hm⟩
  refine ⟨m, hm, ?_⟩
  have hmatch : (setEntry "country" replaceCountryCell r) ++ gbRow ∈ m.rows := by
    apply merge_matched_mem hm hr7
    rw [hcell, hgbfilter]
    exact List.mem_singleton.mpr rfl
  refine ⟨_, hmatch, ?_, ?_⟩
  · rw [rowCell, lookup_append_left (mem_keys_of_lookup hlook), hlook]
    rfl
  · have hnoCode7 : "Code" ∉ rowKeys (setEntry "country" replaceCountryCell r) := by
      rw [rowKeys_setEntry]
      exact hnoCode
    rw [rowCell, lookup_append_right hnoCode7, hgbcode]
    rfl

/-- C2 (amended): the categorical-normalization step of prepare first
rewrites cells exactly equal to "Summer" to "summer" and only then strips
whitespace, so every type cell becomes `stripCell (fixSummerCell old)`:
a cell exactly "Summer" normalizes to "summer", but a cell "Summer" with
a trailing space is not rewritten and normalizes to the stripped,
still-capitalized "Summer". -/
theorem C2_type_normalization (df d : DataFrame) (h : step_fix_type df = Except.ok d) :
    d.cols = df.cols ∧
    List.Forall₂ (fun r r' =>
      r'.lookup "type" = (r.lookup "type").map (fun c => stripCell (fixSummerCell c)))
      df.rows d.rows ∧
    stripCell (fixSummerCell (Cell.str "Summer")) = Cell.str "summer" ∧
    stripCell (fixSummerCell (Cell.str "Summer ")) = Cell.str "Summer" := by
  obtain ⟨htype, hcols, hrows⟩ := step_fix_type_inv h
  refine ⟨hcols, ?_, by decide, by decide⟩
  rw [hrows, List.map_map]
  apply List.forall₂_map_right_iff.mpr
  apply List.forall₂_same.mpr
  intro r _
  rw [Function.comp_apply, lookup_setEntry_self, lookup_setEntry_self, Option.map_map]
  rfl

theorem toInt64Cell_idem {v w : Cell} (h : toInt64Cell v = Except.ok w) :
    toInt64Cell w = Except.ok w := by
  cases v with
  | null => cases h; rfl
  | int n => cases h; rfl
  | num q =>
    rw [toInt64Cell] at h
    by_cases hq : q.den = 1
    · rw [if_pos hq] at h
      cases h
      rfl
    · rw [if_neg hq] at h
      cases h
  | str s => cases h
  | date n => cases h

theorem int64_fold_spec (cs : List String) : ∀ df : DataFrame,
    (∀ c ∈ cs, c ∈ df.cols) →
    (∀ r ∈ df.rows, ∀ p ∈ r, p.1 ∈ cs → ∃ w, toInt64Cell p.2 = Except.ok w) →
    ∃ d, cs.foldlM (fun d c => mapColE d c toInt64Cell) df = Except.ok d ∧
      d.cols = df.cols ∧
      List.Forall₂ (fun r r' => List.Forall₂ (fun p q => q.1 = p.1 ∧
        ((p.1 ∉ cs ∧ q.2 = p.2) ∨ (p.1 ∈ cs ∧ toInt64Cell p.2 = Except.ok q.2))) r r')
        df.rows d.rows := by
  induction cs with
  | nil =>
    intro df _ _
    refine ⟨df, rfl, rfl, ?_⟩
    apply List.forall₂_same.mpr
    intro r _
    apply List.forall₂_same.mpr
    intro p _
    exact ⟨rfl, Or.inl ⟨List.not_mem_nil p.1, rfl⟩⟩
  | cons c0 cs ih =>
    intro df hcols hvals
    rcases mapColE_ok_of_forall (hcols c0 (List.mem_cons_self c0 cs))
      (fun r hr p hp hpc => hvals r hr p hp (hpc ▸ List.mem_cons_self c0 cs))
      with ⟨e1, he1⟩
    obtain ⟨_, hcols1, hrel1⟩ := mapColE_ok_inv he1
    have hrowrel1 : List.Forall₂ (fun r r' => List.Forall₂ (fun p q => q.1 = p.1 ∧
        ((p.1 ≠ c0 ∧ q.2 = p.2) ∨ (p.1 = c0 ∧ toInt64Cell p.2 = Except.ok q.2))) r r')
        df.rows e1.rows :=
      List.Forall₂.imp (fun _ _ hse => setEntryE_ok_entries hse) hrel1
    have hcolsE : ∀ c ∈ cs, c ∈ e1.cols := by
      intro c hc
      rw [hcols1]
      exact hcols c (List.mem_cons_of_mem c0 hc)
    have hvalsE : ∀ r ∈ e1.rows, ∀ p ∈ r, p.1 ∈ cs →
        ∃ w, toInt64Cell p.2 = Except.ok w := by
      intro r' hr' q hq hqc
      rcases forall2_mem_right hrowrel1 r' hr' with ⟨r, hr, hentry⟩
      rcases forall2_mem_right hentry q hq with ⟨p, hp, hq1, hpq⟩
      rcases hpq with ⟨_, hval⟩ | ⟨_, hi⟩
      · rw [hval]
        exact hvals r hr p hp (by rw [← hq1]; exact List.mem_cons_of_mem c0 hqc)
      · exact ⟨q.2, toInt64Cell_idem hi⟩
    rcases ih e1 hcolsE hvalsE with ⟨d, hfold, hcolsd, hreld⟩
    refine ⟨d, ?_, by rw [hcolsd, hcols1], ?_⟩
    · simp only [List.foldlM]
      rw [he1, exceptOk_bind]
      exact hfold
    · apply forall2_trans ?_ hrowrel1 hreld
      intro r r1 r2 h1 h2
      apply forall2_trans ?_ h1 h2
      intro p q1 q2 hpq1 hpq2
      obtain ⟨hq11, hd1⟩ := hpq1
      obtain ⟨hq21, hd2⟩ := hpq2
      refine ⟨by rw [hq21, hq11], ?_⟩
      by_cases hmem : p.1 ∈ c0 :: cs
      · refine Or.inr ⟨hmem, ?_⟩
        rcases hd1 with ⟨hne, hval1⟩ | ⟨heq, hok1⟩
        · rcases hd2 with ⟨hnin, hval2⟩ | ⟨hin, hok2⟩
          · exfalso
            rcases List.mem_cons.mp hmem with hc | hc
            · exact hne hc
            · exact hnin (by rw [hq11]; exact hc)
          · rw [← hval1]
            exact hok2
        · rcases hd2 with ⟨_, hval2⟩ | ⟨_, hok2⟩
          · rw [hval2]
            exact hok1
          · have hidem := toInt64Cell_idem hok1
            rw [hidem] at hok2
            rw [← Except.ok.inj hok2]
            exact hok1
      · refine Or.inl ⟨hmem, ?_⟩
        have hne : p.1 ≠ c0 := fun hc => hmem (hc ▸ List.mem_cons_self c0 cs)
        have hnin : p.1 ∉ cs := fun hc => hmem (List.mem_cons_of_mem c0 hc)
        rcases hd1 with ⟨_, hval1⟩ | ⟨heq, _⟩
        · rcases hd2 with ⟨_, hval2⟩ | ⟨hin, _⟩
          · rw [hval2, hval1]
          · exact absurd (hq11 ▸ hin) hnin
        · exact absurd heq hne

/-- C9: for the five fixed count columns, the numeric-coercion step of
prepare (`step_int64`) succeeds on columns of integral floats and missing
values, converting every present value to an integer and every missing
value to the missing marker, and afterwards every cell of those columns
is of nullable integer kind (an integer or the missing marker). -/
theorem C9_int64_coercion (df : DataFrame)
    (hcols : ∀ c ∈ columns_to_change, c ∈ df.cols)
    (hvals : ∀ r ∈ df.rows, ∀ p ∈ r, p.1 ∈ columns_to_change →
      (p.2 = Cell.null ∨ ∃ q : Rat, q.den = 1 ∧ p.2 = Cell.num q)) :
    ∃ d, step_int64 df = Except.ok d ∧ d.cols = df.cols ∧
      List.Forall₂ (fun r r' => List.Forall₂ (fun p q => q.1 = p.1 ∧
        ((p.1 ∉ columns_to_change ∧ q.2 = p.2) ∨
          (p.1 ∈ columns_to_change ∧ toInt64Cell p.2 = Except.ok q.2))) r r')
        df.rows d.rows ∧
      (∀ r ∈ d.rows, ∀ q ∈ r, q.1 ∈ columns_to_change →
        (q.2 = Cell.null ∨ ∃ n : Int, q.2 = Cell.int n)) := by
  have hvals' : ∀ r ∈ df.rows, ∀ p ∈ r, p.1 ∈ columns_to_change →
      ∃ w, toInt64Cell p.2 = Except.ok w := by
    intro r hr p hp hpc
    rcases hvals r hr p hp hpc with hnull | ⟨q, hq, hv⟩
    · rw [hnull]
      exact ⟨Cell.null, rfl⟩
    · rw [hv]
      exact ⟨Cell.int q.num, by rw [toInt64Cell, if_pos hq]⟩
  rcases int64_fold_spec columns_to_change df hcols hvals' with ⟨d, hfold, hcolsd, hrel⟩
  refine ⟨d, hfold, hcolsd, hrel, ?_⟩
  intro r' hr' q hq hqc
  rcases forall2_mem_right hrel r' hr' with ⟨r, hr, hentry⟩
  rcases forall2_mem_right hentry q hq with ⟨p, hp, hq1, hpq⟩
  rcases hpq with ⟨hnin, _⟩ | ⟨hin, hok⟩
  · exact absurd (hq1 ▸ hqc) hnin
  · rcases hvals r hr p hp hin with hnull | ⟨qq, hqden, hv⟩
    · rw [hnull] at hok
      exact Or.inl (Except.ok.inj hok).symm
    · rw [hv, toInt64Cell, if_pos hqden] at hok
      exact Or.inr ⟨qq.num, (Except.ok.inj hok).symm⟩

theorem parseDateCell_bad_str {s : String} (hs : parseDMY s = none) :
    ∀ w, parseDateCell (Cell.str s) ≠ Except.ok w := by
  intro w hw
  rw [parseDateCell, hs] at hw
  cases hw

theorem parseDateCell_good_str {s : String} {n : Nat} (hs : parseDMY s = some n) :
    parseDateCell (Cell.str s) = Except.ok (Cell.date n) := by
  rw [parseDateCell, hs]

/-- C4: if the table reaching the date-parsing step of prepare has a
start or end cell holding a string that does not match the day/month/year
format, the step raises and the whole pipeline run aborts with an error
(no silent coercion, nothing proceeds past the unparsable date);
conversely, when every start/end cell is a string matching the format,
the date-parsing step succeeds. -/
theorem C4_date_parsing_strict (df npc d1 d2 d3 d4 : DataFrame)
    (h1 : step_drop_columns df = Except.ok d1)
    (h2 : step_drop_rows d1 = Except.ok d2)
    (h3 : step_fix_type d2 = Except.ok d3)
    (h4 : step_int64 d3 = Except.ok d4) :
    ((∃ r ∈ d4.rows, ∃ s, (r.lookup "start" = some (Cell.str s) ∨
        r.lookup "end" = some (Cell.str s)) ∧ parseDMY s = none) →
      ∃ e, prepare_paralympics_data df npc = Except.error e) ∧
    ((∀ r ∈ d4.rows, ∀ p ∈ r, (p.1 = "start" ∨ p.1 = "end") →
        ∃ s n, p.2 = Cell.str s ∧ parseDMY s = some n) →
      "start" ∈ d4.cols → "end" ∈ d4.cols →
      ∃ d5, step_dates d4 = Except.ok d5) := by
  constructor
  · intro hbad
    have hnotok : ∀ d5, step_dates d4 ≠ Except.ok d5 := by
      intro d5 hd5
      rcases step_dates_inv hd5 with ⟨m1, g1, g2⟩
      rcases hbad with ⟨r, hr, s, hcell, hparse⟩
      rcases hcell with hstart | hend
      · exact mapColE_not_ok hr hstart (parseDateCell_bad_str hparse) m1 g1
      · rcases forall2_mem_left (mapColE_ok_inv g1).2.2 r hr with ⟨r1, hr1, hse⟩
        have hend1 : r1.lookup "end" = some (Cell.str s) := by
          rw [setEntryE_ok_lookup_ne hse (by decide)]
          exact hend
        exact mapColE_not_ok hr1 hend1 (parseDateCell_bad_str hparse) d5 g2
    rcases except_error_of_not_ok (step_dates d4) hnotok with ⟨e, he⟩
    exact ⟨e, prepare_error_at_dates h1 h2 h3 h4 he⟩
  · intro hgood hstart hend
    rcases mapColE_ok_of_forall hstart (fun r hr p hp hps => by
      rcases hgood r hr p hp (Or.inl hps) with ⟨s, n, hv, hn⟩
      exact ⟨Cell.date n, by rw [hv]; exact parseDateCell_good_str hn⟩)
      with ⟨m1, g1⟩
    have hendm1 : "end" ∈ m1.cols := by
      rw [(mapColE_ok_inv g1).2.1]
      exact hend
    rcases mapColE_ok_of_forall hendm1 (fun r1 hr1 q hq hqe => by
      rcases forall2_mem_right (mapColE_ok_inv g1).2.2 r1 hr1 with ⟨r, hr, hse⟩
      rcases forall2_mem_right (setEntryE_ok_entries hse) q hq with ⟨p, hp, hq1, hpq⟩
      have hpe : p.1 = "end" := by rw [← hq1]; exact hqe
      rcases hpq with ⟨_, hval⟩ | ⟨hps, _⟩
      · rcases hgood r hr p hp (Or.inr hpe) with ⟨s, n, hv, hn⟩
        exact ⟨Cell.date n, by rw [hval, hv]; exact parseDateCell_good_str hn⟩
      · exact absurd (hpe.symm.trans hps) (by decide))
      with ⟨d5, g2⟩
    refine ⟨d5, ?_⟩
    rw [step_dates, g1, exceptOk_bind]
    exact g2

theorem step_int64_cols {df d : DataFrame} (h : step_int64 df = Except.ok d) :
    d.cols = df.cols := by
  rcases step_int64_inv h with ⟨e1, e2, e3, e4, g1, g2, g3, g4, g5⟩
  rw [(mapColE_ok_inv g5).2.1, (mapColE_ok_inv g4).2.1, (mapColE_ok_inv g3).2.1,
    (mapColE_ok_inv g2).2.1, (mapColE_ok_inv g1).2.1]

theorem step_dates_cols {df d : DataFrame} (h : step_dates df = Except.ok d) :
    d.cols = df.cols := by
  rcases step_dates_inv h with ⟨m1, g1, g2⟩
  rw [(mapColE_ok_inv g2).2.1, (mapColE_ok_inv g1).2.1]

theorem wf_addDuration {df d : DataFrame} (hwf : df.Wf)
    (h : addDuration df = Except.ok d) : d.Wf := by
  obtain ⟨hend, _, hcols, hrows⟩ := addDuration_ok_inv h
  intro r hr
  rw [hrows] at hr
  rcases List.mem_map.mp hr with ⟨r0, hr0, rfl⟩
  rw [rowKeys_insertIdx, hwf r0 hr0, hcols]

/-- Header remaining after the column-pruning step. -/
def keptCols (df : DataFrame) : List String :=
  df.cols.filter (fun c => !columns_to_drop.contains c)

theorem keptCols_subset (df : DataFrame) : ∀ c ∈ keptCols df, c ∈ df.cols :=
  fun _ hc => List.mem_of_mem_filter hc

theorem prepare_cols_spec {df npc out : DataFrame}
    (h : prepare_paralympics_data df npc = Except.ok out)
    (hnpc : npc.cols = ["Code", "Name"])
    (hnm : "Name" ∉ df.cols) (hdur : "duration" ∉ df.cols) :
    "end" ∈ keptCols df ∧ "start" ∈ keptCols df ∧
    out.cols = (keptCols df).insertIdx ((keptCols df).indexOf "end" + 1) "duration"
      ++ ["Code"] ∧
    out.cols.indexOf "duration" = out.cols.indexOf "end" + 1 := by
  rcases prepare_ok_chain h with
    ⟨d1, d2, d3, d4, d5, d6, d7, d8, h1, h2, h3, h4, h5, h6, h7, h8, h9⟩
  obtain ⟨_, hc1, _⟩ := dropColumns_ok_inv h1
  have hc2 : d2.cols = d1.cols := (dropIndex_ok_inv h2).2.1
  have hc3 : d3.cols = d2.cols := (step_fix_type_inv h3).2.1
  have hc4 : d4.cols = d3.cols := step_int64_cols h4
  have hc5 : d5.cols = d4.cols := step_dates_cols h5
  have hF : d5.cols = keptCols df := by
    rw [hc5, hc4, hc3, hc2, hc1]
    rfl
  obtain ⟨hend5, hstart5, hc6, _⟩ := addDuration_ok_inv h6
  rw [hF] at hend5 hstart5
  have hc7 : d7.cols = d6.cols := (mapCol_ok_inv h7).2.1
  have hc8 : d8.cols = d7.cols ++ npc.cols := (merge_ok_inv h8).2.2.1
  obtain ⟨_, hcout, _⟩ := dropColumns_ok_inv h9
  have hjle : (keptCols df).indexOf "end" + 1 ≤ (keptCols df).length := by
    have := List.indexOf_lt_length.mpr hend5
    omega
  have hdurF : "duration" ∉ keptCols df := fun hc => hdur (keptCols_subset df _ hc)
  have hG6 : d6.cols = (keptCols df).insertIdx ((keptCols df).indexOf "end" + 1)
      "duration" := by
    rw [hc6, hF]
  have hGname : ∀ x ∈ (keptCols df).insertIdx ((keptCols df).indexOf "end" + 1)
      "duration", x ≠ "Name" := by
    intro x hx
    rcases (List.mem_insertIdx hjle).mp hx with rfl | hxF
    · decide
    · intro hc
      exact hnm (keptCols_subset df _ (hc ▸ hxF))
  have houtcols : out.cols = (keptCols df).insertIdx ((keptCols df).indexOf "end" + 1)
      "duration" ++ ["Code"] := by
    rw [hcout, hc8, hc7, hG6, hnpc, List.filter_append]
    congr 1
    apply List.filter_eq_self.mpr
    intro x hx
    simpa using hGname x hx
  refine ⟨hend5, hstart5, houtcols, ?_⟩
  have hdurG : ((keptCols df).insertIdx ((keptCols df).indexOf "end" + 1)
      "duration").indexOf "duration" = (keptCols df).indexOf "end" + 1 :=
    indexOf_insertIdx_self _ _ hdurF hjle
  have hmemdurG : "duration" ∈ (keptCols df).insertIdx
      ((keptCols df).indexOf "end" + 1) "duration" :=
    (List.mem_insertIdx hjle).mpr (Or.inl rfl)
  have hendG : "end" ∈ (keptCols df).insertIdx
      ((keptCols df).indexOf "end" + 1) "duration" :=
    (List.mem_insertIdx hjle).mpr (Or.inr hend5)
  have hendGidx : ((keptCols df).insertIdx ((keptCols df).indexOf "end" + 1)
      "duration").indexOf "end" = (keptCols df).indexOf "end" := by
    apply indexOf_insertIdx_of_lt
    omega
  rw [houtcols, List.indexOf_append_of_mem hmemdurG, List.indexOf_append_of_mem hendG,
    hdurG, hendGidx]

theorem addDuration_rows_inv {d5 d6 : DataFrame} (hwf5 : d5.Wf)
    (hdur5 : "duration" ∉ d5.cols) (h6 : addDuration d5 = Except.ok d6) :
    ∀ r6 ∈ d6.rows,
      rowCell r6 "duration" = durCell (rowCell r6 "end") (rowCell r6 "start") := by
  obtain ⟨hend, _, _, hrows⟩ := addDuration_ok_inv h6
  intro r6 hr6
  rw [hrows] at hr6
  rcases List.mem_map.mp hr6 with ⟨r5, hr5, rfl⟩
  have hkeys := hwf5 r5 hr5
  have hlen : d5.cols.length = r5.length := by
    rw [← hkeys, rowKeys, List.length_map]
  have hjle : d5.cols.indexOf "end" + 1 ≤ r5.length := by
    have := List.indexOf_lt_length.mpr hend
    omega
  have hdurk : "duration" ∉ rowKeys r5 := by
    rw [hkeys]
    exact hdur5
  have hee := rowCell_insertIdx_pair_ne "duration"
    (durCell (rowCell r5 "end") (rowCell r5 "start")) "end" (by decide)
    (d5.cols.indexOf "end" + 1) r5
  have hss := rowCell_insertIdx_pair_ne "duration"
    (durCell (rowCell r5 "end") (rowCell r5 "start")) "start" (by decide)
    (d5.cols.indexOf "end" + 1) r5
  rw [hee, hss, rowCell, lookup_insertIdx_self _ r5 hdurk hjle]
  rfl

/-- C1: in the prepared table returned by `prepare_paralympics_data`, the
duration column sits immediately after the end column, every row's
duration cell is the whole-day difference between that row's parsed end
and start dates, and in particular start 01/09/2000 with end 12/09/2000
(day/month/year) gives duration 11. -/
theorem C1_duration_column (df npc out : DataFrame)
    (hwf : df.Wf) (hnpc : npc.cols = ["Code", "Name"])
    (hnm : "Name" ∉ df.cols) (hdur : "duration" ∉ df.cols)
    (h : prepare_paralympics_data df npc = Except.ok out) :
    out.cols.indexOf "duration" = out.cols.indexOf "end" + 1 ∧
    (∀ row ∈ out.rows,
      rowCell row "duration" = durCell (rowCell row "end") (rowCell row "start")) ∧
    parseDMY "01/09/2000" = some 730364 ∧ parseDMY "12/09/2000" = some 730375 ∧
    durCell (Cell.date 730375) (Cell.date 730364) = Cell.int 11 := by
  obtain ⟨_, _, _, hidx⟩ := prepare_cols_spec h hnpc hnm hdur
  refine ⟨hidx, ?_, by decide, by decide, by decide⟩
  rcases prepare_ok_chain h with
    ⟨d1, d2, d3, d4, d5, d6, d7, d8, h1, h2, h3, h4, h5, h6, h7, h8, h9⟩
  have hwf1 := wf_dropColumns hwf h1
  have hwf2 := wf_dropIndex hwf1 h2
  have hwf3 := (step_fix_type_frame hwf2 h3).1
  have hwf4 := (step_int64_frame hwf3 h4).1
  have hwf5 := (step_dates_frame hwf4 h5).1
  obtain ⟨_, hc1, _⟩ := dropColumns_ok_inv h1
  have hF : d5.cols = keptCols df := by
    rw [step_dates_cols h5, step_int64_cols h4, (step_fix_type_inv h3).2.1,
      (dropIndex_ok_inv h2).2.1, hc1]
    rfl
  have hdur5 : "duration" ∉ d5.cols := by
    rw [hF]
    exact fun hc => hdur (keptCols_subset df _ hc)
  have hinv6 := addDuration_rows_inv hwf5 hdur5 h6
  have hwf6 := wf_addDuration hwf5 h6
  have hwf7 := wf_mapCol hwf6 h7
  obtain ⟨hend5, hstart5, hc6, _⟩ := addDuration_ok_inv h6
  have hjle : d5.cols.indexOf "end" + 1 ≤ d5.cols.length := by
    have := List.indexOf_lt_length.mpr hend5
    omega
  have hdur6 : "duration" ∈ d6.cols := by
    rw [hc6]
    exact (List.mem_insertIdx hjle).mpr (Or.inl rfl)
  have hend6 : "end" ∈ d6.cols := by
    rw [hc6]
    exact (List.mem_insertIdx hjle).mpr (Or.inr hend5)
  have hstart6 : "start" ∈ d6.cols := by
    rw [hc6]
    exact (List.mem_insertIdx hjle).mpr (Or.inr hstart5)
  have hc7 : d7.cols = d6.cols := (mapCol_ok_inv h7).2.1
  -- invariant at d7
  have hinv7 : ∀ r7 ∈ d7.rows,
      rowCell r7 "duration" = durCell (rowCell r7 "end") (rowCell r7 "start") := by
    intro r7 hr7
    rw [(mapCol_ok_inv h7).2.2] at hr7
    rcases List.mem_map.mp hr7 with ⟨r6, hr6, rfl⟩
    rw [rowCell_setEntry_ne "country" replaceCountryCell "duration" (by decide) r6,
      rowCell_setEntry_ne "country" replaceCountryCell "end" (by decide) r6,
      rowCell_setEntry_ne "country" replaceCountryCell "start" (by decide) r6]
    exact hinv6 r6 hr6
  -- invariant at d8 (merge appends on the right)
  have hinv8 : ∀ r8 ∈ d8.rows,
      rowCell r8 "duration" = durCell (rowCell r8 "end") (rowCell r8 "start") := by
    intro r8 hr8
    rcases merge_row_decomp h8 r8 hr8 with ⟨r7, hr7, ext, rfl, _⟩
    have hkeys7 : rowKeys r7 = d7.cols := hwf7 r7 hr7
    have hmem : ∀ c : String, c ∈ d6.cols → c ∈ rowKeys r7 := by
      intro c hc
      rw [hkeys7, hc7]
      exact hc
    rw [rowCell_append_left "duration" (hmem _ hdur6),
      rowCell_append_left "end" (hmem _ hend6),
      rowCell_append_left "start" (hmem _ hstart6)]
    exact hinv7 r7 hr7
  -- invariant survives dropping the Name column
  intro row hrow
  rw [(dropColumns_ok_inv h9).2.2] at hrow
  rcases List.mem_map.mp hrow with ⟨r8, hr8, rfl⟩
  rw [rowCell_filter_keys (fun c => !(["Name"] : List String).contains c) "duration"
      (by decide) r8,
    rowCell_filter_keys (fun c => !(["Name"] : List String).contains c) "end"
      (by decide) r8,
    rowCell_filter_keys (fun c => !(["Name"] : List String).contains c) "start"
      (by decide) r8]
  exact hinv8 r8 hr8

/-- C6: the prepared table returned by `prepare_paralympics_data`
contains none of the columns named for removal (URL,
disabilities_included, highlights), and does not contain the reference
table's Name column, which is dropped after the join. -/
theorem C6_dropped_columns_absent (df npc out : DataFrame)
    (hnpc : npc.cols = ["Code", "Name"])
    (h : prepare_paralympics_data df npc = Except.ok out) :
    "URL" ∉ out.cols ∧ "disabilities_included" ∉ out.cols ∧
    "highlights" ∉ out.cols ∧ "Name" ∉ out.cols := by
  rcases prepare_ok_chain h with
    ⟨d1, d2, d3, d4, d5, d6, d7, d8, h1, h2, h3, h4, h5, h6, h7, h8, h9⟩
  obtain ⟨_, hc1, _⟩ := dropColumns_ok_inv h1
  have hc5 : d5.cols = d1.cols := by
    rw [step_dates_cols h5, step_int64_cols h4, (step_fix_type_inv h3).2.1,
      (dropIndex_ok_inv h2).2.1]
  obtain ⟨hend5, _, hc6, _⟩ := addDuration_ok_inv h6
  have hjle : d5.cols.indexOf "end" + 1 ≤ d5.cols.length := by
    have := List.indexOf_lt_length.mpr hend5
    omega
  obtain ⟨_, hcout, _⟩ := dropColumns_ok_inv h9
  have hc8 : d8.cols = d7.cols ++ npc.cols := (merge_ok_inv h8).2.2.1
  have hc7 : d7.cols = d6.cols := (mapCol_ok_inv h7).2.1
  have habs : ∀ c : String, c ∈ columns_to_drop → c ≠ "duration" →
      c ∉ ["Code", "Name"] → c ∉ out.cols := by
    intro c hcd hcdur hcn hcmem
    rw [hcout] at hcmem
    have hc8mem := List.mem_of_mem_filter hcmem
    rw [hc8, hnpc] at hc8mem
    rcases List.mem_append.mp hc8mem with h7mem | hrest
    · rw [hc7, hc6] at h7mem
      rcases (List.mem_insertIdx hjle).mp h7mem with rfl | h5mem
      · exact hcdur rfl
      · rw [hc5, hc1] at h5mem
        have hfc := (List.mem_filter.mp h5mem).2
        have hnc : c ∉ columns_to_drop := by simpa using hfc
        exact hnc hcd
    · exact hcn hrest
  refine ⟨habs "URL" (by decide) (by decide) (by decide),
    habs "disabilities_included" (by decide) (by decide) (by decide),
    habs "highlights" (by decide) (by decide) (by decide), ?_⟩
  intro hNmem
  rw [hcout] at hNmem
  have := (List.mem_filter.mp hNmem).2
  simp at this

theorem length_filter_zip_fst {α β : Type} (q : α → Bool) :
    ∀ (xs : List α) (ys : List β), xs.length = ys.length →
      ((xs.zip ys).filter (fun p => q p.1)).length = (xs.filter q).length := by
  intro xs
  induction xs with
  | nil => intro ys _; rfl
  | cons x xt ih =>
    intro ys hlen
    cases ys with
    | nil => cases hlen
    | cons y yt =>
      rw [List.zip_cons_cons, List.filter_cons, List.filter_cons]
      by_cases hq : q x = true
      · simp only [hq, if_pos]
        rw [List.length_cons, List.length_cons, ih yt (by simpa using hlen)]
      · simp only [Bool.not_eq_true] at hq
        simp only [hq]
        rw [if_neg (by simp), if_neg (by simp), ih yt (by simpa using hlen)]

theorem range_filter_not_dropped (n : Nat) (h : 32 ≤ n) :
    ((List.range n).filter (fun i => !rows_to_drop.contains i)).length = n - 3 := by
  have hsplit : List.range n
      = List.range 32 ++ (List.range (n - 32)).map (32 + ·) := by
    rw [← List.range_add]
    congr 1
    omega
  rw [hsplit, List.filter_append, List.length_append]
  have h1 : ((List.range 32).filter (fun i => !rows_to_drop.contains i)).length
      = 29 := by decide
  have h2 : ((List.range (n - 32)).map (32 + ·)).filter
      (fun i => !rows_to_drop.contains i) = (List.range (n - 32)).map (32 + ·) := by
    apply List.filter_eq_self.mpr
    intro x hx
    rcases List.mem_map.mp hx with ⟨i, _, rfl⟩
    have hnx : 32 + i ∉ rows_to_drop := by
      intro hc
      have : 32 + i = 0 ∨ 32 + i = 17 ∨ 32 + i = 31 := by
        simpa [rows_to_drop] using hc
      omega
    simpa using hnx
  rw [h1, h2, List.length_map, List.length_range]
  omega

theorem dropIndex_length_pruned {df d : DataFrame}
    (h : dropIndex df rows_to_drop = Except.ok d) :
    d.rows.length = df.rows.length - 3 := by
  obtain ⟨hlt, _, hrows⟩ := dropIndex_ok_inv h
  rw [hrows, List.length_map, List.enum_eq_zip_range,
    length_filter_zip_fst (fun i => !rows_to_drop.contains i)
      (List.range df.rows.length) df.rows (by simp),
    range_filter_not_dropped]
  exact hlt 31 (by decide)

theorem step_int64_len {df d : DataFrame} (h : step_int64 df = Except.ok d) :
    d.rows.length = df.rows.length := by
  rcases step_int64_inv h with ⟨e1, e2, e3, e4, g1, g2, g3, g4, g5⟩
  rw [mapColE_length g5, mapColE_length g4, mapColE_length g3,
    mapColE_length g2, mapColE_length g1]

theorem step_dates_len {df d : DataFrame} (h : step_dates df = Except.ok d) :
    d.rows.length = df.rows.length := by
  rcases step_dates_inv h with ⟨m1, g1, g2⟩
  rw [mapColE_length g2, mapColE_length g1]

/-- C3 (amended): when every country key matches at most one reference
row (which duplicate reference names would violate), the row count of the
prepared table equals the raw table's row count minus the number of
pruned row positions (three). -/
theorem C3_row_count_unique_keys (df npc out : DataFrame)
    (huniq : ∀ key : Cell, (npc.rows.filter
      (fun rr => cellMatch key (rowCell rr "Name"))).length ≤ 1)
    (h : prepare_paralympics_data df npc = Except.ok out) :
    out.rows.length = df.rows.length - 3 := by
  rcases prepare_ok_chain h with
    ⟨d1, d2, d3, d4, d5, d6, d7, d8, h1, h2, h3, h4, h5, h6, h7, h8, h9⟩
  have l1 : d1.rows.length = df.rows.length := by
    rw [(dropColumns_ok_inv h1).2.2]
    simp
  have l2 : d2.rows.length = d1.rows.length - 3 := dropIndex_length_pruned h2
  have l3 : d3.rows.length = d2.rows.length := by
    rw [(step_fix_type_inv h3).2.2]
    simp
  have l4 : d4.rows.length = d3.rows.length := step_int64_len h4
  have l5 : d5.rows.length = d4.rows.length := step_dates_len h5
  have l6 : d6.rows.length = d5.rows.length := by
    rw [(addDuration_ok_inv h6).2.2.2]
    simp
  have l7 : d7.rows.length = d6.rows.length := by
    rw [(mapCol_ok_inv h7).2.2]
    simp
  have l8 : d8.rows.length = d7.rows.length :=
    merge_length_of_unique h8 (fun r _ => huniq (rowCell r "country"))
  have l9 : out.rows.length = d8.rows.length := by
    rw [(dropColumns_ok_inv h9).2.2]
    simp
  omega

theorem durCell_null_right (e : Cell) : durCell e Cell.null = Cell.null := by
  cases e <;> rfl

theorem durCell_null_left (s : Cell) : durCell Cell.null s = Cell.null := by
  cases s <;> rfl

theorem addDuration_ok {df : DataFrame} (hend : "end" ∈ df.cols)
    (hstart : "start" ∈ df.cols) : ∃ d, addDuration df = Except.ok d := by
  rw [addDuration, if_pos ⟨by simpa using hend, by simpa using hstart⟩]
  exact ⟨_, rfl⟩

/-- C10: a missing (null) start or end cell of a retained row does not
make the date-parsing step of prepare fail: the null cell passes through
as a null date, the derived duration of that row is the null integer, and
the rest of the pipeline still succeeds and produces a prepared table
containing a row with that null date cell and null duration. -/
theorem C10_null_dates_flow (d4 npc : DataFrame) (r : Row)
    (hwf : d4.Wf)
    (hstart : "start" ∈ d4.cols) (hend : "end" ∈ d4.cols)
    (hcountry : "country" ∈ d4.cols) (hdur : "duration" ∉ d4.cols)
    (hnpc : npc.cols = ["Code", "Name"])
    (hgood : ∀ r ∈ d4.rows, ∀ p ∈ r, (p.1 = "start" ∨ p.1 = "end") →
      (p.2 = Cell.null ∨ ∃ s n, p.2 = Cell.str s ∧ parseDMY s = some n))
    (hr : r ∈ d4.rows)
    (hnull : r.lookup "start" = some Cell.null ∨ r.lookup "end" = some Cell.null) :
    ∃ d5 d6 d7 d8 out,
      step_dates d4 = Except.ok d5 ∧ step_duration d5 = Except.ok d6 ∧
      step_replace_country d6 = Except.ok d7 ∧ step_merge d7 npc = Except.ok d8 ∧
      step_drop_name d8 = Except.ok out ∧
      ∃ row ∈ out.rows,
        (rowCell row "start" = Cell.null ∨ rowCell row "end" = Cell.null) ∧
        rowCell row "duration" = Cell.null := by
  -- the date step succeeds cell-wise
  have hcellok : ∀ v : Cell, (v = Cell.null ∨ ∃ s n, v = Cell.str s ∧ parseDMY s = some n) →
      ∃ w, parseDateCell v = Except.ok w := by
    intro v hv
    rcases hv with rfl | ⟨s, n, rfl, hn⟩
    · exact ⟨Cell.null, rfl⟩
    · exact ⟨Cell.date n, parseDateCell_good_str hn⟩
  rcases mapColE_ok_of_forall hstart (fun rr hrr p hp hps =>
    hcellok p.2 (hgood rr hrr p hp (Or.inl hps))) with ⟨m1, g1⟩
  obtain ⟨_, hm1cols, hm1rel⟩ := mapColE_ok_inv g1
  have hgood1 : ∀ r1 ∈ m1.rows, ∀ q ∈ r1, q.1 = "end" →
      (q.2 = Cell.null ∨ ∃ s n, q.2 = Cell.str s ∧ parseDMY s = some n) := by
    intro r1 hr1 q hq hqe
    rcases forall2_mem_right hm1rel r1 hr1 with ⟨r0, hr0, hse⟩
    rcases forall2_mem_right (setEntryE_ok_entries hse) q hq with ⟨p, hp, hq1, hpq⟩
    rcases hpq with ⟨_, hval⟩ | ⟨hps, _⟩
    · rw [hval]
      exact hgood r0 hr0 p hp (Or.inr (hq1 ▸ hqe))
    · exact absurd (hps.symm.trans (hq1 ▸ hqe)) (by decide)
  rcases mapColE_ok_of_forall (show "end" ∈ m1.cols by rw [hm1cols]; exact hend)
    (fun r1 hr1 q hq hqe => hcellok q.2 (hgood1 r1 hr1 q hq hqe)) with ⟨d5, g2⟩
  obtain ⟨_, hd5cols', hd5rel⟩ := mapColE_ok_inv g2
  have hstep5 : step_dates d4 = Except.ok d5 := by
    rw [step_dates, g1, exceptOk_bind]
    exact g2
  -- frame facts at d5
  have hwfm1 := wf_mapColE hwf g1
  have hwf5 := wf_mapColE hwfm1 g2
  have hd5cols : d5.cols = d4.cols := by rw [hd5cols', hm1cols]
  have hend5 : "end" ∈ d5.cols := by rw [hd5cols]; exact hend
  have hstart5 : "start" ∈ d5.cols := by rw [hd5cols]; exact hstart
  have hdur5 : "duration" ∉ d5.cols := by rw [hd5cols]; exact hdur
  -- track the null-cell row to d5
  rcases forall2_mem_left hm1rel r hr with ⟨r1, hr1, hse1⟩
  rcases forall2_mem_left hd5rel r1 hr1 with ⟨r5, hr5, hse2⟩
  have hnull5 : r5.lookup "start" = some Cell.null ∨
      r5.lookup "end" = some Cell.null := by
    rcases hnull with hs | he
    · left
      rcases setEntryE_ok_lookup_some hse1 hs with ⟨w, hw, hw1⟩
      rw [(Except.ok.inj hw).symm] at hw1
      rw [setEntryE_ok_lookup_ne hse2 (by decide)]
      exact hw1
    · right
      have he1 : r1.lookup "end" = some Cell.null := by
        rw [setEntryE_ok_lookup_ne hse1 (by decide)]
        exact he
      rcases setEntryE_ok_lookup_some hse2 he1 with ⟨w, hw, hw5⟩
      rw [(Except.ok.inj hw).symm] at hw5
      exact hw5
  -- duration step
  rcases addDuration_ok hend5 hstart5 with ⟨d6, g6⟩
  obtain ⟨_, _, hd6cols, hd6rows⟩ := addDuration_ok_inv g6
  have hwf6 := wf_addDuration hwf5 g6
  have hkeys5 := hwf5 r5 hr5
  have hjle : d5.cols.indexOf "end" + 1 ≤ r5.length := by
    have h1 := List.indexOf_lt_length.mpr hend5
    have h2 : d5.cols.length = r5.length := by
      rw [← hkeys5, rowKeys, List.length_map]
    omega
  have hdurk5 : "duration" ∉ rowKeys r5 := by
    rw [hkeys5]
    exact hdur5
  have hr6 : r5.insertIdx (d5.cols.indexOf "end" + 1)
      ("duration", durCell (rowCell r5 "end") (rowCell r5 "start")) ∈ d6.rows := by
    rw [hd6rows]
    exact List.mem_map_of_mem _ hr5
  have hcell5 : rowCell r5 "start" = Cell.null ∨ rowCell r5 "end" = Cell.null := by
    rcases hnull5 with h | h
    · left
      rw [rowCell, h]
      rfl
    · right
      rw [rowCell, h]
      rfl
  have hdurval : durCell (rowCell r5 "end") (rowCell r5 "start") = Cell.null := by
    rcases hcell5 with h | h
    · rw [h, durCell_null_right]
    · rw [h, durCell_null_left]
  have hdur6cell : (r5.insertIdx (d5.cols.indexOf "end" + 1)
      ("duration", durCell (rowCell r5 "end") (rowCell r5 "start"))).lookup "duration"
      = some Cell.null := by
    rw [lookup_insertIdx_self _ r5 hdurk5 hjle, hdurval]
  have hstart6cell : rowCell (r5.insertIdx (d5.cols.indexOf "end" + 1)
      ("duration", durCell (rowCell r5 "end") (rowCell r5 "start"))) "start"
      = rowCell r5 "start" :=
    rowCell_insertIdx_pair_ne "duration"
      (durCell (rowCell r5 "end") (rowCell r5 "start")) "start" (by decide)
      (d5.cols.indexOf "end" + 1) r5
  have hend6cell : rowCell (r5.insertIdx (d5.cols.indexOf "end" + 1)
      ("duration", durCell (rowCell r5 "end") (rowCell r5 "start"))) "end"
      = rowCell r5 "end" :=
    rowCell_insertIdx_pair_ne "duration"
      (durCell (rowCell r5 "end") (rowCell r5 "start")) "end" (by decide)
      (d5.cols.indexOf "end" + 1) r5
  -- replace-country step
  have hcountry6 : "country" ∈ d6.cols := by
    rw [hd6cols]
    refine (List.mem_insertIdx ?_).mpr (Or.inr (by rw [hd5cols]; exact hcountry))
    have := List.indexOf_lt_length.mpr hend5
    omega
  have g7 : step_replace_country d6
      = Except.ok { d6 with rows := d6.rows.map (setEntry "country" replaceCountryCell) } :=
    mapCol_ok hcountry6
  have hwf7 : DataFrame.Wf { d6 with rows := d6.rows.map (setEntry "country" replaceCountryCell) } :=
    wf_mapCol hwf6 g7
  set r6 := r5.insertIdx (d5.cols.indexOf "end" + 1)
    ("duration", durCell (rowCell r5 "end") (rowCell r5 "start")) with hr6def
  set r7 := setEntry "country" replaceCountryCell r6 with hr7def
  have hr7 : r7 ∈ ({ d6 with rows := d6.rows.map (setEntry "country" replaceCountryCell) }
      : DataFrame).rows := List.mem_map_of_mem _ hr6
  have hstart7 : rowCell r7 "start" = rowCell r5 "start" := by
    rw [hr7def, rowCell_setEntry_ne "country" replaceCountryCell "start" (by decide) r6]
    exact hstart6cell
  have hend7 : rowCell r7 "end" = rowCell r5 "end" := by
    rw [hr7def, rowCell_setEntry_ne "country" replaceCountryCell "end" (by decide) r6]
    exact hend6cell
  have hdur7 : rowCell r7 "duration" = Cell.null := by
    rw [hr7def, rowCell_setEntry_ne "country" replaceCountryCell "duration" (by decide) r6,
      rowCell, hdur6cell]
    rfl
  -- merge step
  have hcountry7 : "country" ∈ ({ d6 with
      rows := d6.rows.map (setEntry "country" replaceCountryCell) } : DataFrame).cols :=
    hcountry6
  have hName : "Name" ∈ npc.cols := by
    rw [hnpc]
    decide
  rcases merge_ok hcountry7 hName with ⟨d8, g8⟩
  rcases merge_left_mem g8 r7 hr7 with ⟨ext, hr8, _⟩
  have hkeys7 : rowKeys r7 = ({ d6 with
      rows := d6.rows.map (setEntry "country" replaceCountryCell) } : DataFrame).cols :=
    hwf7 r7 hr7
  have hstart7k : "start" ∈ rowKeys r7 := by
    rw [hkeys7]
    show "start" ∈ d6.cols
    rw [hd6cols]
    refine (List.mem_insertIdx ?_).mpr (Or.inr hstart5)
    have := List.indexOf_lt_length.mpr hend5
    omega
  have hend7k : "end" ∈ rowKeys r7 := by
    rw [hkeys7]
    show "end" ∈ d6.cols
    rw [hd6cols]
    refine (List.mem_insertIdx ?_).mpr (Or.inr hend5)
    have := List.indexOf_lt_length.mpr hend5
    omega
  have hdur7k : "duration" ∈ rowKeys r7 := by
    rw [hkeys7]
    show "duration" ∈ d6.cols
    rw [hd6cols]
    refine (List.mem_insertIdx ?_).mpr (Or.inl rfl)
    have := List.indexOf_lt_length.mpr hend5
    omega
  -- drop the Name column
  have hNamed8 : ∀ n ∈ ["Name"], n ∈ d8.cols := by
    intro n hn
    rcases List.mem_singleton.mp hn with rfl
    rw [(merge_ok_inv g8).2.2.1]
    exact List.mem_append.mpr (Or.inr hName)
  have g9 := dropColumns_ok hNamed8
  refine ⟨d5, d6, _, d8, _, hstep5, g6, g7, g8, g9, ?_⟩
  refine ⟨(r7 ++ ext).filter (fun p => !(["Name"] : List String).contains p.1), ?_, ?_, ?_⟩
  · show _ ∈ (List.map (fun rr => rr.filter (fun p => !(["Name"] : List String).contains p.1)) d8.rows)
    exact List.mem_map_of_mem _ hr8
  · rcases hcell5 with h | h
    · left
      rw [rowCell_filter_keys (fun c => !(["Name"] : List String).contains c) "start"
        (by decide) (r7 ++ ext), rowCell_append_left "start" hstart7k, hstart7]
      exact h
    · right
      rw [rowCell_filter_keys (fun c => !(["Name"] : List String).contains c) "end"
        (by decide) (r7 ++ ext), rowCell_append_left "end" hend7k, hend7]
      exact h
  · rw [rowCell_filter_keys (fun c => !(["Name"] : List String).contains c) "duration"
      (by decide) (r7 ++ ext), rowCell_append_left "duration" hdur7k]
    exact hdur7

/-! ### Concrete tables for counterexamples and witnesses -/

def exCols : List String :=
  ["type", "country", "countries", "events", "participants_m", "participants_f",
   "participants", "start", "end", "URL", "disabilities_included", "highlights"]

def exBaseRow : Row :=
  [("type", Cell.str "Summer"), ("country", Cell.str "UK"), ("countries", Cell.num 5),
   ("events", Cell.num 7), ("participants_m", Cell.num 3), ("participants_f", Cell.null),
   ("participants", Cell.num 9), ("start", Cell.str "01/09/2000"),
   ("end", Cell.str "12/09/2000"), ("URL", Cell.str "u"),
   ("disabilities_included", Cell.str "d"), ("highlights", Cell.str "hl")]

/-- A 32-row raw table shaped like the real dataset (32 rows so that the
pruned positions 0, 17, 31 exist). -/
def exDf : DataFrame := { cols := exCols, rows := List.replicate 32 exBaseRow }

def exNpc : DataFrame :=
  { cols := ["Code", "Name"],
    rows := [[("Code", Cell.str "GBR"), ("Name", Cell.str "Great Britain")]] }

def exOut : DataFrame :=
  ((prepare_paralympics_data exDf exNpc).toOption).getD { cols := [], rows := [] }

/-- A reference table with a duplicated name key. -/
def exNpcDup : DataFrame :=
  { cols := ["Code", "Name"],
    rows := [[("Code", Cell.str "GBR"), ("Name", Cell.str "Great Britain")],
             [("Code", Cell.str "GB2"), ("Name", Cell.str "Great Britain")]] }

def exTypeDf : DataFrame := { cols := ["type"], rows := [[("type", Cell.str "Summer")]] }

def exTypeOut : DataFrame :=
  ((step_fix_type exTypeDf).toOption).getD { cols := [], rows := [] }

/-- C2 counterexample: run the categorical-normalization step of prepare
on a row whose type cell is "Summer" with a trailing space; the cell
comes out as "Summer" (stripped but still capitalized), not "summer" as
the claim states, because the rewrite runs before the strip. -/
theorem C2_counterexample :
    Except.map (fun d => d.rows.map (fun r => rowCell r "type"))
      (step_fix_type { cols := ["type"], rows := [[("type", Cell.str "Summer ")]] })
      = Except.ok [Cell.str "Summer"] ∧
    Cell.str "Summer" ≠ Cell.str "summer" := by
  exact ⟨by decide, by decide⟩

/-- C3 counterexample: on a 32-row raw table whose every country matches
a duplicated reference name, prepare returns 58 rows, not 32 − 3 = 29:
the left merge emits one row per matching reference row. -/
theorem C3_counterexample :
    exDf.rows.length = 32 ∧
    Except.map (fun d => d.rows.length) (prepare_paralympics_data exDf exNpcDup)
      = Except.ok 58 ∧
    (58 : Nat) ≠ 32 - 3 := by
  exact ⟨by decide, by decide, by decide⟩

/-! ### Witnesses -/

theorem C1_duration_column_witness :
    prepare_paralympics_data exDf exNpc = Except.ok exOut ∧
    (exOut.cols.indexOf "duration" = exOut.cols.indexOf "end" + 1 ∧
     (∀ row ∈ exOut.rows,
       rowCell row "duration" = durCell (rowCell row "end") (rowCell row "start")) ∧
     parseDMY "01/09/2000" = some 730364 ∧ parseDMY "12/09/2000" = some 730375 ∧
     durCell (Cell.date 730375) (Cell.date 730364) = Cell.int 11) :=
  ⟨by decide, C1_duration_column exDf exNpc exOut (by decide) (by decide) (by decide)
    (by decide) (by decide)⟩

theorem C2_type_normalization_witness :
    step_fix_type exTypeDf = Except.ok exTypeOut ∧
    (exTypeOut.cols = exTypeDf.cols ∧
     List.Forall₂ (fun r r' =>
       r'.lookup "type" = (r.lookup "type").map (fun c => stripCell (fixSummerCell c)))
       exTypeDf.rows exTypeOut.rows ∧
     stripCell (fixSummerCell (Cell.str "Summer")) = Cell.str "summer" ∧
     stripCell (fixSummerCell (Cell.str "Summer ")) = Cell.str "Summer") :=
  ⟨by decide, C2_type_normalization exTypeDf exTypeOut (by decide)⟩

theorem C3_row_count_witness :
    prepare_paralympics_data exDf exNpc = Except.ok exOut ∧
    exOut.rows.length = exDf.rows.length - 3 :=
  ⟨by decide, C3_row_count_unique_keys exDf exNpc exOut
    (fun key => le_trans (List.length_filter_le _ _) (by decide)) (by decide)⟩

def exD1 : DataFrame :=
  ((step_drop_columns exDf).toOption).getD { cols := [], rows := [] }

def exD2 : DataFrame := ((step_drop_rows exD1).toOption).getD { cols := [], rows := [] }

def exD3 : DataFrame := ((step_fix_type exD2).toOption).getD { cols := [], rows := [] }

def exD4 : DataFrame := ((step_int64 exD3).toOption).getD { cols := [], rows := [] }

theorem C4_date_parsing_strict_witness :
    (step_drop_columns exDf = Except.ok exD1 ∧
     step_drop_rows exD1 = Except.ok exD2 ∧
     step_fix_type exD2 = Except.ok exD3 ∧
     step_int64 exD3 = Except.ok exD4) ∧
    (((∃ r ∈ exD4.rows, ∃ s, (r.lookup "start" = some (Cell.str s) ∨
        r.lookup "end" = some (Cell.str s)) ∧ parseDMY s = none) →
      ∃ e, prepare_paralympics_data exDf exNpc = Except.error e) ∧
    ((∀ r ∈ exD4.rows, ∀ p ∈ r, (p.1 = "start" ∨ p.1 = "end") →
        ∃ s n, p.2 = Cell.str s ∧ parseDMY s = some n) →
      "start" ∈ exD4.cols → "end" ∈ exD4.cols →
      ∃ d5, step_dates exD4 = Except.ok d5)) :=
  ⟨⟨by decide, by decide, by decide, by decide⟩,
    C4_date_parsing_strict exDf exNpc exD1 exD2 exD3 exD4
      (by decide) (by decide) (by decide) (by decide)⟩

theorem C5_merge_left_outer_witness :
    ("country" ∈ exDf.cols ∧ "Name" ∈ exNpc.cols) ∧
    (∃ m, step_merge exDf exNpc = Except.ok m ∧
      (∀ r ∈ exDf.rows, ∃ ext, r ++ ext ∈ m.rows) ∧
      (∀ r ∈ exDf.rows,
        (∀ rr ∈ exNpc.rows, cellMatch (rowCell r "country") (rowCell rr "Name") = false) →
        r ++ nullRow exNpc.cols ∈ m.rows ∧
          ("Code" ∉ rowKeys r → rowCell (r ++ nullRow exNpc.cols) "Code" = Cell.null))) :=
  ⟨⟨by decide, by decide⟩, C5_merge_left_outer exDf exNpc (by decide) (by decide)⟩

theorem C6_dropped_columns_absent_witness :
    prepare_paralympics_data exDf exNpc = Except.ok exOut ∧
    ("URL" ∉ exOut.cols ∧ "disabilities_included" ∉ exOut.cols ∧
     "highlights" ∉ exOut.cols ∧ "Name" ∉ exOut.cols) :=
  ⟨by decide, C6_dropped_columns_absent exDf exNpc exOut (by decide) (by decide)⟩

def exC7df : DataFrame := { cols := ["country"], rows := [[("country", Cell.str "UK")]] }

def exC7d7 : DataFrame :=
  ((step_replace_country exC7df).toOption).getD { cols := [], rows := [] }

def exGbRow : Row := [("Code", Cell.str "GBR"), ("Name", Cell.str "Great Britain")]

theorem C7_country_rewrite_before_join_witness :
    ([("country", Cell.str "UK")] : Row).lookup "country" = some (Cell.str "UK") ∧
    (∃ m, step_merge exC7d7 exNpc = Except.ok m ∧
      ∃ row ∈ m.rows, rowCell row "country" = Cell.str "Great Britain" ∧
        rowCell row "Code" = Cell.str "GBR") :=
  ⟨by decide, C7_country_rewrite_before_join exC7df exNpc exC7d7
    [("country", Cell.str "UK")] exGbRow (by decide) (by decide) (by decide)
    (by decide) (by decide) (by decide) (by decide)⟩

theorem C8_missing_pruned_labels_fail_fast_witness :
    ((∃ c ∈ columns_to_drop, c ∉ (DataFrame.mk [] []).cols) ∨
      (DataFrame.mk [] []).rows.length < 32) ∧
    (∃ e, prepare_paralympics_data (DataFrame.mk [] []) exNpc = Except.error e) :=
  ⟨Or.inl (by decide),
    C8_missing_pruned_labels_fail_fast (DataFrame.mk [] []) exNpc (Or.inl (by decide))⟩

def exC9df : DataFrame :=
  { cols := columns_to_change,
    rows := [[("countries", Cell.num 5), ("events", Cell.null),
              ("participants_m", Cell.num 5), ("participants_f", Cell.num 5),
              ("participants", Cell.num 5)]] }

theorem C9_int64_coercion_witness :
    (∀ c ∈ columns_to_change, c ∈ exC9df.cols) ∧
    (∃ d, step_int64 exC9df = Except.ok d ∧ d.cols = exC9df.cols ∧
      List.Forall₂ (fun r r' => List.Forall₂ (fun p q => q.1 = p.1 ∧
        ((p.1 ∉ columns_to_change ∧ q.2 = p.2) ∨
          (p.1 ∈ columns_to_change ∧ toInt64Cell p.2 = Except.ok q.2))) r r')
        exC9df.rows d.rows ∧
      (∀ r ∈ d.rows, ∀ q ∈ r, q.1 ∈ columns_to_change →
        (q.2 = Cell.null ∨ ∃ n : Int, q.2 = Cell.int n))) :=
  ⟨by decide, C9_int64_coercion exC9df (by decide)
    (by
      intro r hr p hp hpc
      rcases List.mem_singleton.mp hr with rfl
      simp only [List.mem_cons, List.not_mem_nil, or_false] at hp
      rcases hp with rfl | rfl | rfl | rfl | rfl
      · exact Or.inr ⟨5, by decide, rfl⟩
      · exact Or.inl rfl
      · exact Or.inr ⟨5, by decide, rfl⟩
      · exact Or.inr ⟨5, by decide, rfl⟩
      · exact Or.inr ⟨5, by decide, rfl⟩)⟩

def exC10row : Row :=
  [("country", Cell.str "UK"), ("start", Cell.null), ("end", Cell.str "12/09/2000")]

def exC10df : DataFrame := { cols := ["country", "start", "end"], rows := [exC10row] }

theorem C10_null_dates_flow_witness :
    (exC10row.lookup "start" = some Cell.null ∨
      exC10row.lookup "end" = some Cell.null) ∧
    (∃ d5 d6 d7 d8 out,
      step_dates exC10df = Except.ok d5 ∧ step_duration d5 = Except.ok d6 ∧
      step_replace_country d6 = Except.ok d7 ∧ step_merge d7 exNpc = Except.ok d8 ∧
      step_drop_name d8 = Except.ok out ∧
      ∃ row ∈ out.rows,
        (rowCell row "start" = Cell.null ∨ rowCell row "end" = Cell.null) ∧
        rowCell row "duration" = Cell.null) :=
  ⟨Or.inl (by decide), C10_null_dates_flow exC10df exNpc exC10row (by decide) (by decide)
    (by decide) (by decide) (by decide) (by decide)
    (by
      intro rr hrr p hp hps
      rcases List.mem_singleton.mp hrr with rfl
      simp only [exC10row, List.mem_cons, List.not_mem_nil, or_false] at hp
      rcases hp with rfl | rfl | rfl
      · rcases hps with hc | hc <;> exact absurd hc (by decide)
      · exact Or.inl rfl
      · exact Or.inr ⟨"12/09/2000", 730375, rfl, by decide⟩)
    (by decide) (Or.inl (by decide))⟩
